/-
  Verification development for the useSqueel core: a shallow embedding of
  the dependency extractor, the request/response correlation channel, the
  transaction coordinator (worker and client halves), the migration
  applier, the invalidation/broadcast bus and the reactive subscription
  contract, together with theorems settling the specification claims.
-/
import Mathlib

namespace Squeel

/-! ## Character-level helpers for the dependency extractor

The extractor (extractTables in src/subscriptions/dependency.ts) works by
regular-expression scanning over the SQL text.  We embed it as explicit
scanners over the character list of the string.  The JS word class used by
the patterns is [a-zA-Z0-9_]; the whitespace class is modelled by its
ASCII members, which are the only ones the repository ever feeds it. -/

/-- Lower-case a single ASCII character, as String.prototype.toLowerCase does
on the ASCII identifiers captured by the extractor patterns. -/
def toLowerAscii (c : Char) : Char :=
  if 65 ≤ c.toNat ∧ c.toNat ≤ 90 then Char.ofNat (c.toNat + 32) else c

/-- Membership in the JS regex word class [a-zA-Z0-9_]. -/
def isWordChar (c : Char) : Bool :=
  (decide (97 ≤ c.toNat) && decide (c.toNat ≤ 122)) ||
  (decide (65 ≤ c.toNat) && decide (c.toNat ≤ 90)) ||
  (decide (48 ≤ c.toNat) && decide (c.toNat ≤ 57)) ||
  decide (c.toNat = 95)

/-- ASCII members of the JS regex whitespace class. -/
def isSpaceChar (c : Char) : Bool :=
  decide (c.toNat = 32) || (decide (9 ≤ c.toNat) && decide (c.toNat ≤ 13))

/-- The single-quote character, written by code point. -/
def sqChar : Char := Char.ofNat 39

/-- The backtick character, written by code point. -/
def bqChar : Char := Char.ofNat 96

/-- Strip line comments: the replacement of the pattern matching two dashes
followed by the rest of the line (per-line, global) with the empty string.
The flag records whether we are inside a comment being dropped. -/
def stripLineComments : Bool → List Char → List Char
  | _, [] => []
  | true, c :: rest =>
      if c = '\n' then c :: stripLineComments false rest
      else stripLineComments true rest
  | false, '-' :: '-' :: rest => stripLineComments true rest
  | false, c :: rest => c :: stripLineComments false rest

/-- Find the end of a block comment: returns the suffix after the first
star-slash closer, or none when the comment is unterminated. -/
def findBlockClose : List Char → Option (List Char)
  | [] => none
  | c :: rest =>
      match rest with
      | [] => none
      | c2 :: rest2 =>
          if c = '*' ∧ c2 = '/' then some rest2 else findBlockClose (c2 :: rest2)

theorem findBlockClose_length : ∀ {l r : List Char},
    findBlockClose l = some r → r.length ≤ l.length := by
  intro l
  induction l with
  | nil => intro r h; simp [findBlockClose] at h
  | cons c rest ih =>
      intro r h
      rw [findBlockClose.eq_def] at h
      cases rest with
      | nil => simp at h
      | cons c2 rest2 =>
          simp only [] at h
          split at h
          · simp at h; subst h; simp; omega
          · exact Nat.le_trans (ih h) (Nat.le_succ _)

/-- Strip block comments: each slash-star opener up to its nearest closer is
removed (the non-greedy global replacement); an unterminated opener is left
in place.  Fuel-driven so the scanner is structurally recursive; the caller
supplies fuel at least the length of the input, which is always enough
because every step consumes at least one character. -/
def stripBlockCommentsGo : Nat → List Char → List Char
  | 0, cs => cs
  | _ + 1, [] => []
  | fuel + 1, '/' :: '*' :: rest =>
      match findBlockClose rest with
      | some rest2 => stripBlockCommentsGo fuel rest2
      | none => '/' :: '*' :: stripBlockCommentsGo fuel rest
  | fuel + 1, c :: rest => c :: stripBlockCommentsGo fuel rest

def stripBlockComments (cs : List Char) : List Char :=
  stripBlockCommentsGo cs.length cs

/-- Find the closing single quote of a string literal: returns the suffix
after it, or none when the literal is unterminated. -/
def findQuoteEnd : List Char → Option (List Char)
  | [] => none
  | c :: rest => if c = sqChar then some rest else findQuoteEnd rest

/-- Strip string literals: each single-quoted literal body is replaced by an
empty literal (two adjacent quotes), so keywords inside quoted strings are
never misread; an unterminated quote is left in place. -/
def stripStringLitsGo : Nat → List Char → List Char
  | 0, cs => cs
  | _ + 1, [] => []
  | fuel + 1, c :: rest =>
      if c = sqChar then
        match findQuoteEnd rest with
        | some rest2 => sqChar :: sqChar :: stripStringLitsGo fuel rest2
        | none => c :: stripStringLitsGo fuel rest
      else c :: stripStringLitsGo fuel rest

def stripStringLits (cs : List Char) : List Char :=
  stripStringLitsGo cs.length cs

/-- The cleaned SQL text: line comments, then block comments, then string
literals removed, in the order of the three replace calls in the source. -/
def cleanSql (cs : List Char) : List Char :=
  stripStringLits (stripBlockComments (stripLineComments false cs))

/-- Case-insensitively consume an expected keyword (given lower-cased);
returns the rest on success. -/
def dropCI : List Char → List Char → Option (List Char)
  | [], rest => some rest
  | _ :: _, [] => none
  | k :: ks, c :: rest => if toLowerAscii c = k then dropCI ks rest else none

/-- Consume one or more whitespace characters; none if the first character
is not whitespace. -/
def skipSpaces1 : List Char → Option (List Char)
  | [] => none
  | c :: rest =>
      if isSpaceChar c then
        some (skipSpacesAll rest)
      else none
where
  skipSpacesAll : List Char → List Char
  | [] => []
  | c :: rest => if isSpaceChar c then skipSpacesAll rest else c :: rest

/-- Consume one or more word characters; returns the captured run and the
rest, or none if the first character is not a word character. -/
def takeIdent : List Char → Option (List Char × List Char)
  | [] => none
  | c :: rest =>
      if isWordChar c then
        let (w, r) := takeIdentAll rest
        some (c :: w, r)
      else none
where
  takeIdentAll : List Char → List Char × List Char
  | [] => ([], [])
  | c :: rest =>
      if isWordChar c then
        let (w, r) := takeIdentAll rest
        (c :: w, r)
      else ([], c :: rest)

theorem skipSpacesAll_length : ∀ (l : List Char),
    (skipSpaces1.skipSpacesAll l).length ≤ l.length := by
  intro l
  induction l with
  | nil => simp [skipSpaces1.skipSpacesAll]
  | cons c rest ih =>
      rw [skipSpaces1.skipSpacesAll]
      split
      · exact Nat.le_trans ih (Nat.le_succ _)
      · simp

theorem skipSpaces1_length : ∀ {l r : List Char},
    skipSpaces1 l = some r → r.length < l.length := by
  intro l r h
  match l, h with
  | c :: rest, h =>
      rw [skipSpaces1] at h
      split at h
      · simp at h
        subst h
        exact Nat.lt_succ_of_le (skipSpacesAll_length rest)
      · simp at h

theorem takeIdentAll_length : ∀ (l : List Char),
    (takeIdent.takeIdentAll l).2.length ≤ l.length := by
  intro l
  induction l with
  | nil => simp [takeIdent.takeIdentAll]
  | cons c rest ih =>
      rw [takeIdent.takeIdentAll]
      split
      · simpa using Nat.le_trans ih (Nat.le_succ _)
      · simp

theorem takeIdent_length : ∀ {l : List Char} {w r : List Char},
    takeIdent l = some (w, r) → r.length < l.length := by
  intro l w r h
  match l, h with
  | c :: rest, h =>
      rw [takeIdent] at h
      split at h
      · simp at h
        have : r = (takeIdent.takeIdentAll rest).2 := by
          rcases h with ⟨h1, h2⟩
          exact h2.symm
        subst this
        exact Nat.lt_succ_of_le (takeIdentAll_length rest)
      · simp at h

theorem dropCI_length : ∀ {k l r : List Char},
    dropCI k l = some r → r.length ≤ l.length := by
  intro k
  induction k with
  | nil => intro l r h; simp [dropCI] at h; subst h; exact Nat.le_refl _
  | cons kc ks ih =>
      intro l r h
      match l, h with
      | c :: rest, h =>
          rw [dropCI] at h
          split at h
          · exact Nat.le_trans (ih h) (Nat.le_succ _)
          · simp at h

/-! ## The dependency extractor -/

/-- One step of the CTE pattern: the keyword WITH (case-insensitive), one or
more spaces, then a captured identifier.  Returns the lower-cased capture
and the rest of the input. -/
def matchCte (cs : List Char) : Option (List Char × List Char) :=
  match dropCI ['w', 'i', 't', 'h'] cs with
  | none => none
  | some r1 =>
  match skipSpaces1 r1 with
  | none => none
  | some r2 =>
  match takeIdent r2 with
  | none => none
  | some (w, r3) => some (w.map toLowerAscii, r3)

theorem matchCte_length {cs w r : List Char} (h : matchCte cs = some (w, r)) :
    r.length < cs.length := by
  unfold matchCte at h
  split at h
  · simp at h
  · rename_i r1 h1
    split at h
    · simp at h
    · rename_i r2 h2
      split at h
      · simp at h
      · rename_i w0 r3 h3
        simp at h
        rcases h with ⟨hw, hr⟩
        subst hr
        calc r3.length < r2.length := takeIdent_length h3
          _ < r1.length := skipSpaces1_length h2
          _ ≤ cs.length := dropCI_length h1

/-- Scan the cleaned SQL for every match of the CTE pattern, collecting the
names in match order; the Boolean records whether the previous character
was a word character (for the word-boundary test at a candidate start). -/
def collectCtesGo : Nat → Bool → List Char → List String
  | 0, _, _ => []
  | _ + 1, _, [] => []
  | fuel + 1, prevWord, c :: rest =>
      if prevWord = false ∧ isWordChar c then
        match matchCte (c :: rest) with
        | some (w, r3) => String.mk w :: collectCtesGo fuel true r3
        | none => collectCtesGo fuel (isWordChar c) rest
      else collectCtesGo fuel (isWordChar c) rest

def collectCtes (cs : List Char) : List String :=
  collectCtesGo cs.length false cs

/-- The keyword alternation of the table-reference pattern, tried in the
alternation order FROM, JOIN, UPDATE, INTO, DELETE-whitespace-FROM. -/
def matchRefKeyword (cs : List Char) : Option (List Char) :=
  match dropCI ['f', 'r', 'o', 'm'] cs with
  | some r => some r
  | none =>
  match dropCI ['j', 'o', 'i', 'n'] cs with
  | some r => some r
  | none =>
  match dropCI ['u', 'p', 'd', 'a', 't', 'e'] cs with
  | some r => some r
  | none =>
  match dropCI ['i', 'n', 't', 'o'] cs with
  | some r => some r
  | none =>
  match dropCI ['d', 'e', 'l', 'e', 't', 'e'] cs with
  | some r1 =>
      match skipSpaces1 r1 with
      | some r2 => dropCI ['f', 'r', 'o', 'm'] r2
      | none => none
  | none => none

theorem matchRefKeyword_length {cs r : List Char} (h : matchRefKeyword cs = some r) :
    r.length ≤ cs.length := by
  unfold matchRefKeyword at h
  split at h
  · rename_i h1; simp at h; subst h; exact dropCI_length h1
  · split at h
    · rename_i h1; simp at h; subst h; exact dropCI_length h1
    · split at h
      · rename_i h1; simp at h; subst h; exact dropCI_length h1
      · split at h
        · rename_i h1; simp at h; subst h; exact dropCI_length h1
        · split at h
          · rename_i r1 h1
            split at h
            · rename_i r2 h2
              calc r.length ≤ r2.length := dropCI_length h
                _ ≤ r1.length := Nat.le_of_lt (skipSpaces1_length h2)
                _ ≤ cs.length := dropCI_length h1
            · simp at h
          · simp at h

/-- A quote character admitted around a table name by the pattern: a double
quote or a backtick. -/
def isRefQuote (c : Char) : Bool := decide (c.toNat = 34) || decide (c.toNat = 96)

/-- Drop the optional opening quote admitted before the captured name. -/
def dropRefQuote (cs : List Char) : List Char :=
  match cs with
  | c :: rest => if isRefQuote c then rest else cs
  | [] => cs

/-- One full match of the table-reference pattern at the current position:
keyword, one or more spaces, an optional quote, the captured identifier and
an optional closing quote.  Returns the lower-cased capture, whether the
last consumed character was a word character, and the rest. -/
def matchTableRef (cs : List Char) : Option (List Char × Bool × List Char) :=
  match matchRefKeyword cs with
  | none => none
  | some r1 =>
  match skipSpaces1 r1 with
  | none => none
  | some r2 =>
  match takeIdent (dropRefQuote r2) with
  | none => none
  | some (w, r3) =>
  match r3 with
  | c :: rest =>
      if isRefQuote c then some (w.map toLowerAscii, false, rest)
      else some (w.map toLowerAscii, true, r3)
  | [] => some (w.map toLowerAscii, true, r3)

theorem dropRefQuote_length (cs : List Char) : (dropRefQuote cs).length ≤ cs.length := by
  unfold dropRefQuote
  match cs with
  | [] => exact Nat.le_refl _
  | c :: rest =>
      simp only []
      split
      · exact Nat.le_succ _
      · exact Nat.le_refl _

theorem matchTableRef_length {cs w r : List Char} {b : Bool}
    (h : matchTableRef cs = some (w, b, r)) : r.length < cs.length := by
  unfold matchTableRef at h
  split at h
  · simp at h
  · rename_i r1 h1
    split at h
    · simp at h
    · rename_i r2 h2
      have hr2 : r2.length < cs.length :=
        Nat.lt_of_lt_of_le (skipSpaces1_length h2) (matchRefKeyword_length h1)
      split at h
      · simp at h
      · rename_i w0 r3 h3
        have hp : r3.length < r2.length :=
          Nat.lt_of_lt_of_le (takeIdent_length h3) (dropRefQuote_length r2)
        have : r.length ≤ r3.length := by
          match r3, hp, h with
          | [], hp, h =>
              cases h
              exact Nat.le_refl _
          | c :: rest, hp, h =>
              by_cases hq : isRefQuote c = true
              · simp only [hq, if_true] at h
                cases h
                exact Nat.le_succ _
              · simp only [hq, if_false, Bool.false_eq_true] at h
                cases h
                exact Nat.le_refl _
        exact Nat.lt_trans (Nat.lt_of_le_of_lt this hp) hr2

/-- Scan the cleaned SQL for every match of the table-reference pattern,
collecting the lower-cased captures in match order. -/
def collectTableRefsGo : Nat → Bool → List Char → List String
  | 0, _, _ => []
  | _ + 1, _, [] => []
  | fuel + 1, prevWord, c :: rest =>
      if prevWord = false ∧ isWordChar c then
        match matchTableRef (c :: rest) with
        | some (w, pw, r3) => String.mk w :: collectTableRefsGo fuel pw r3
        | none => collectTableRefsGo fuel (isWordChar c) rest
      else collectTableRefsGo fuel (isWordChar c) rest

def collectTableRefs (cs : List Char) : List String :=
  collectTableRefsGo cs.length false cs

/-- Append a name to the accumulated set unless already present, mirroring
insertion into a JS Set (first occurrence wins, insertion order kept). -/
def addUnique (acc : List String) (t : String) : List String :=
  if t ∈ acc then acc else acc ++ [t]

/-- The dependency extractor, extractTables: clean the SQL, collect the CTE
names introduced by the WITH pattern, collect the table references, drop
those that are CTE names, and return null when nothing was found. -/
def extractTables (sql : String) : Option (List String) :=
  let clean := cleanSql sql.data
  let ctes := collectCtes clean
  let tables := (collectTableRefs clean).foldl
    (fun acc t => if t ∈ ctes then acc else addUnique acc t) []
  if tables.isEmpty then none else some tables

/-- The mapping the client applies to the extractor result before notifying
invalidation: a known set passes through, an unknown becomes the wildcard. -/
def execInvalidationTables (o : Option (List String)) : List String :=
  match o with
  | some ts => ts
  | none => ["*"]

/-! ## Lemmas about the extractor -/

theorem charOfNat_toNat (n : Nat) (h : n.isValidChar) : (Char.ofNat n).toNat = n := by
  simp only [Char.ofNat, h, dite_true, Char.ofNatAux, Char.toNat]
  rfl

theorem toLowerAscii_toNat (c : Char) (h : 65 ≤ c.toNat ∧ c.toNat ≤ 90) :
    (toLowerAscii c).toNat = c.toNat + 32 := by
  have hv : (c.toNat + 32).isValidChar := by left; omega
  rw [toLowerAscii, if_pos h, charOfNat_toNat _ hv]

theorem toLowerAscii_idem (c : Char) : toLowerAscii (toLowerAscii c) = toLowerAscii c := by
  by_cases h : 65 ≤ c.toNat ∧ c.toNat ≤ 90
  · have h2 := toLowerAscii_toNat c h
    conv_lhs => rw [toLowerAscii]
    rw [if_neg (by rw [h2]; omega)]
  · have hc : toLowerAscii c = c := by rw [toLowerAscii, if_neg h]
    rw [hc, hc]

theorem matchTableRef_capture {cs w r : List Char} {b : Bool}
    (h : matchTableRef cs = some (w, b, r)) :
    ∃ w0 : List Char, w = w0.map toLowerAscii := by
  unfold matchTableRef at h
  split at h
  · simp at h
  · split at h
    · simp at h
    · split at h
      · simp at h
      · rename_i w0 r3 h3
        match r3, h with
        | [], h =>
            cases h
            exact ⟨w0, rfl⟩
        | c :: rest, h =>
            by_cases hq : isRefQuote c = true
            · simp only [hq, if_true] at h
              cases h
              exact ⟨w0, rfl⟩
            · simp only [hq, if_false, Bool.false_eq_true] at h
              cases h
              exact ⟨w0, rfl⟩

theorem collectTableRefsGo_lower :
    ∀ (fuel : Nat) (pw : Bool) (cs : List Char) (t : String),
      t ∈ collectTableRefsGo fuel pw cs →
      ∃ w0 : List Char, t = String.mk (w0.map toLowerAscii) := by
  intro fuel
  induction fuel with
  | zero => intro pw cs t ht; simp [collectTableRefsGo] at ht
  | succ fuel ih =>
      intro pw cs t ht
      match cs, ht with
      | [], ht => simp [collectTableRefsGo] at ht
      | c :: rest, ht =>
          rw [collectTableRefsGo] at ht
          by_cases hb : pw = false ∧ isWordChar c
          · rw [if_pos hb] at ht
            cases hmm : matchTableRef (c :: rest) with
            | none =>
                rw [hmm] at ht
                exact ih _ _ _ ht
            | some p =>
                rw [hmm] at ht
                match p, hmm, ht with
                | (w, pw2, r3), hmm, ht =>
                    simp only [List.mem_cons] at ht
                    cases ht with
                    | inl h =>
                        rcases matchTableRef_capture hmm with ⟨w0, hw⟩
                        exact ⟨w0, by rw [h, hw]⟩
                    | inr h => exact ih _ _ _ h
          · rw [if_neg hb] at ht
            exact ih _ _ _ ht

theorem foldl_addUnique_mem (ctes : List String) :
    ∀ (l acc : List String) (t : String),
      t ∈ l.foldl (fun acc u => if u ∈ ctes then acc else addUnique acc u) acc →
      t ∈ acc ∨ (t ∈ l ∧ t ∉ ctes) := by
  intro l
  induction l with
  | nil => intro acc t ht; simp at ht; exact Or.inl ht
  | cons u us ih =>
      intro acc t ht
      simp only [List.foldl_cons] at ht
      rcases ih _ t ht with hacc | ⟨hus, hcte⟩
      · by_cases hu : u ∈ ctes
        · rw [if_pos hu] at hacc
          exact Or.inl hacc
        · rw [if_neg hu, addUnique] at hacc
          split at hacc
          · exact Or.inl hacc
          · simp at hacc
            cases hacc with
            | inl h => exact Or.inl h
            | inr h => exact Or.inr ⟨by simp [h], by rw [h]; exact hu⟩
      · exact Or.inr ⟨by simp [hus], hcte⟩

/-- C3 (amended): every name in the extractor result is lower-cased, and no
name captured by the WITH pattern (the single identifier directly following
a WITH keyword) is in the result. -/
theorem extractTables_lower_and_cte_excluded
    (sql : String) (l : List String) (t : String)
    (hl : extractTables sql = some l) (ht : t ∈ l) :
    t.data.map toLowerAscii = t.data ∧ t ∉ collectCtes (cleanSql sql.data) := by
  rw [extractTables] at hl
  split at hl
  · simp at hl
  · simp only [Option.some_inj] at hl
    subst hl
    constructor
    · rcases foldl_addUnique_mem _ _ _ _ ht with h | ⟨hmem, _⟩
      · simp at h
      · rcases collectTableRefsGo_lower _ _ _ _ hmem with ⟨w0, hw⟩
        subst hw
        show List.map toLowerAscii (String.mk (w0.map toLowerAscii)).data = _
        have : (String.mk (w0.map toLowerAscii)).data = w0.map toLowerAscii := rfl
        rw [this, List.map_map]
        have : toLowerAscii ∘ toLowerAscii = toLowerAscii := by
          funext c; exact toLowerAscii_idem c
        rw [this]
    · rcases foldl_addUnique_mem _ _ _ _ ht with h | ⟨_, hcte⟩
      · simp at h
      · exact hcte

/-- C3 witness: a concrete extraction whose result is lower-cased (the
source text says Users) and excludes nothing spurious. -/
theorem extractTables_lower_and_cte_excluded_witness :
    ("users" : String).data.map toLowerAscii = ("users" : String).data ∧
      ("users" : String) ∉ collectCtes (cleanSql ("SELECT * FROM Users" : String).data) :=
  extractTables_lower_and_cte_excluded "SELECT * FROM Users" ["users"] "users"
    (by decide) (by decide)

/-- C3 counterexample: in a statement that introduces two CTE names, the
name b is introduced as a CTE alias (the second one, after the comma) and
is later referenced after FROM, yet it appears in the extractor result:
only the identifier directly after the WITH keyword is excluded. -/
theorem extractTables_second_cte_not_excluded :
    extractTables "WITH a AS (SELECT * FROM t), b AS (SELECT * FROM u) SELECT * FROM b"
      = some ["t", "u", "b"] ∧
    ("b" : String) ∈ ["t", "u", "b"] := by
  constructor
  · decide
  · decide

/-- C10: the extractor never returns an empty set, so the client mapping
null to the wildcard never observes an empty dependency set. -/
theorem extractTables_never_empty (sql : String) :
    extractTables sql ≠ some [] ∧ execInvalidationTables (extractTables sql) ≠ [] := by
  rw [extractTables]
  split
  · exact ⟨by simp, by simp [execInvalidationTables]⟩
  · rename_i h
    rw [List.isEmpty_iff] at h
    exact ⟨by simpa using h, by simpa [execInvalidationTables] using h⟩

/-! ## The message protocol (worker/protocol.ts)

Rows travel as opaque values of a type parameter R; positional SQL
parameters as a type parameter V; binary payloads as byte lists. -/

/-- A migration record from client/types.ts: an id, an up script and an
optional down script. -/
structure Migration where
  id : Int
  up : String
  down : Option String
  deriving DecidableEq

/-- A staged statement: SQL text plus its positional parameters. -/
structure SqlStmt (V : Type) where
  sql : String
  params : List V
  deriving DecidableEq

/-- The request union of protocol.ts.  The export variant is spelled
exportDb because export is reserved here. -/
inductive Req (V : Type) where
  | init (dbName : String) (storage : String) (pragma : Option (List (String × String)))
      (migrations : Option (List Migration))
  | query (sql : String) (params : List V)
  | exec (sql : String) (params : List V)
  | transaction (statements : List (SqlStmt V))
  | close
  | exportDb
  | importDb (bytes : List Nat)
  deriving DecidableEq

/-- The error payload of an error response: a message and an optional
stack trace. -/
structure ErrInfo where
  message : String
  stack : Option String
  deriving DecidableEq

/-- The response union of protocol.ts. -/
inductive Res (R : Type) where
  | ready
  | queryResult (rows : List R)
  | execResult (changes : Nat) (lastInsertRowid : Option Int)
  | error (error : ErrInfo)
  | exportResult (bytes : List Nat)
  deriving DecidableEq

/-- An envelope on the wire: an id and at most one of request/response. -/
structure WorkerMessage (V R : Type) where
  id : String
  req : Option (Req V)
  res : Option (Res R)

/-! ## The correlation channel (worker/rpc.ts)

The pending map holds one continuation per outstanding id; we record it as
the list of pending ids plus the log of settlements performed, each
settlement being the resolution or rejection the continuation received. -/

/-- The error object the channel rejects with: an Error constructed from
the response message alone, so no engine trace is attached to it. -/
structure RpcError where
  message : String
  stack : Option String
  deriving DecidableEq

/-- How a pending promise is settled. -/
inductive Outcome (R : Type) where
  | resolved (res : Res R)
  | rejected (e : RpcError)
  deriving DecidableEq

/-- The settlement a response produces: an error response rejects with an
Error carrying the message (rpc.ts line 13), anything else resolves with
the response itself. -/
def settleOf {R : Type} (r : Res R) : Outcome R :=
  match r with
  | .error e => .rejected ⟨e.message, none⟩
  | r => .resolved r

/-- The observable state of an RPC instance: the ids with a registered
continuation, and the settlements performed so far in order. -/
structure RpcState (R : Type) where
  pending : List String
  settled : List (String × Outcome R)
  deriving DecidableEq

/-- The onmessage handler of the RPC constructor: look up the envelope id
among the pending continuations; when one exists and the envelope carries a
response, delete the entry first and settle it exactly once; otherwise the
envelope is discarded. -/
def onmessage {V R : Type} (st : RpcState R) (m : WorkerMessage V R) : RpcState R :=
  match m.res with
  | some r =>
      if m.id ∈ st.pending then
        { pending := st.pending.erase m.id,
          settled := st.settled ++ [(m.id, settleOf r)] }
      else st
  | none => st

/-- RPC.request: registers the continuation under a fresh id (before
posting the message to the worker). -/
def request {R : Type} (st : RpcState R) (id : String) : RpcState R :=
  { st with pending := st.pending ++ [id] }

/-- Deliver a list of response envelopes to the handler in arrival order. -/
def processResponses {V R : Type} (st : RpcState R) (msgs : List (WorkerMessage V R)) :
    RpcState R :=
  msgs.foldl onmessage st

/-! ## Correlation theorems -/

theorem processResponses_settles {V R : Type} :
    ∀ (order : List String) (pend : List String) (sett : List (String × Outcome R))
      (resp : String → Res R),
      order.Nodup → (∀ i ∈ order, i ∈ pend) →
      processResponses (V := V) ⟨pend, sett⟩
          (order.map (fun i => ⟨i, none, some (resp i)⟩)) =
        ⟨pend.diff order, sett ++ order.map (fun i => (i, settleOf (resp i)))⟩ := by
  intro order
  induction order with
  | nil => intro pend sett resp _ _; simp [processResponses]
  | cons i os ih =>
      intro pend sett resp hnd hsub
      have hi : i ∈ pend := hsub i (by simp)
      have hstep : onmessage (V := V) (⟨pend, sett⟩ : RpcState R) ⟨i, none, some (resp i)⟩ =
          ⟨pend.erase i, sett ++ [(i, settleOf (resp i))]⟩ := by
        simp [onmessage, hi]
      have hos : ∀ j ∈ os, j ∈ pend.erase i := by
        intro j hj
        have hne : j ≠ i := by
          intro hji
          subst hji
          exact (List.nodup_cons.mp hnd).1 hj
        exact (List.mem_erase_of_ne hne).mpr (hsub j (by simp [hj]))
      have ihh := ih (pend.erase i) (sett ++ [(i, settleOf (resp i))]) resp
        (List.nodup_cons.mp hnd).2 hos
      simp only [List.map_cons, processResponses, List.foldl_cons, hstep]
      simp only [processResponses] at ihh
      rw [ihh, List.diff_cons]
      simp

theorem diff_of_perm : ∀ (order pend : List String), order.Perm pend → pend.diff order = [] := by
  intro order
  induction order with
  | nil => intro pend h; rw [List.diff_nil]; exact (h.symm).eq_nil
  | cons i os ih =>
      intro pend h
      rcases List.cons_perm_iff_perm_erase.mp h with ⟨_, hperm⟩
      rw [List.diff_cons]
      exact ih _ hperm

theorem countP_id_eq_one_of_nodup {l : List String} {i : String}
    (hnd : l.Nodup) (hi : i ∈ l) :
    l.countP (fun j => decide (j = i)) = 1 := by
  induction l with
  | nil => simp at hi
  | cons a as ih =>
      rw [List.countP_cons]
      rcases List.mem_cons.mp hi with rfl | hi2
      · have hnot : ¬ i ∈ as := (List.nodup_cons.mp hnd).1
        have hz : as.countP (fun j => decide (j = i)) = 0 := by
          rw [List.countP_eq_zero]
          intro j hj
          simp only [decide_eq_true_eq]
          intro hji
          subst hji
          exact hnot hj
        simp [hz]
      · have ha : a ≠ i := by
          intro h
          subst h
          exact (List.nodup_cons.mp hnd).1 hi2
        rw [ih (List.nodup_cons.mp hnd).2 hi2]
        simp [ha]

/-- C2: with N outstanding requests under pairwise-distinct ids, delivering
their responses in an arbitrary permuted order settles every caller exactly
once with the response carrying its own id (never another's), empties the
pending table, and an envelope whose id has no pending entry is discarded
without settling anything. -/
theorem rpc_correlation {V R : Type} [DecidableEq R]
    (ids order : List String) (resp : String → Res R)
    (hnd : ids.Nodup) (hperm : order.Perm ids) :
    (processResponses (V := V) ⟨ids, []⟩
        (order.map (fun i => ⟨i, none, some (resp i)⟩))).pending = [] ∧
    (processResponses (V := V) ⟨ids, []⟩
        (order.map (fun i => ⟨i, none, some (resp i)⟩))).settled =
      order.map (fun i => (i, settleOf (resp i))) ∧
    (∀ i ∈ ids,
      (processResponses (V := V) ⟨ids, []⟩
          (order.map (fun i => ⟨i, none, some (resp i)⟩))).settled.countP
        (fun p => decide (p.1 = i)) = 1) ∧
    (∀ i ∈ ids, ∀ o : Outcome R,
      (i, o) ∈ (processResponses (V := V) ⟨ids, []⟩
          (order.map (fun i => ⟨i, none, some (resp i)⟩))).settled →
      o = settleOf (resp i)) ∧
    (∀ (st : RpcState R) (m : WorkerMessage V R),
      m.id ∉ st.pending → onmessage st m = st) := by
  have hsub : ∀ i ∈ order, i ∈ ids := fun i hi => hperm.mem_iff.mp hi
  have hond : order.Nodup := hperm.nodup_iff.mpr hnd
  have hmain := processResponses_settles (V := V) order ids [] resp hond hsub
  rw [hmain]
  refine ⟨diff_of_perm order ids hperm, by simp, ?_, ?_, ?_⟩
  · intro i hi
    show List.countP (fun p => decide (p.1 = i))
      (List.map (fun j => (j, settleOf (resp j))) order) = 1
    rw [List.countP_map]
    exact countP_id_eq_one_of_nodup hond (hperm.mem_iff.mpr hi)
  · intro i _ o ho
    simp only [List.nil_append, List.mem_map] at ho
    rcases ho with ⟨j, _, hj⟩
    have hj1 : j = i := congrArg Prod.fst hj
    have hj2 : settleOf (resp j) = o := congrArg Prod.snd hj
    rw [← hj2, hj1]
  · intro st m hm
    unfold onmessage
    match m, hm with
    | ⟨mid, mreq, some r⟩, hm => simp [hm]
    | ⟨mid, mreq, none⟩, hm => rfl

/-- C2 witness: three outstanding requests answered in a permuted order. -/
theorem rpc_correlation_witness :
    (processResponses (V := Unit) (⟨["a", "b", "c"], []⟩ : RpcState Unit)
        (["b", "c", "a"].map (fun i => ⟨i, none, some (Res.ready)⟩))).pending = [] ∧
    (processResponses (V := Unit) (⟨["a", "b", "c"], []⟩ : RpcState Unit)
        (["b", "c", "a"].map (fun i => ⟨i, none, some (Res.ready)⟩))).settled =
      ["b", "c", "a"].map (fun i => (i, settleOf (Res.ready))) ∧
    (∀ i ∈ ["a", "b", "c"],
      (processResponses (V := Unit) (⟨["a", "b", "c"], []⟩ : RpcState Unit)
          (["b", "c", "a"].map (fun i => ⟨i, none, some (Res.ready)⟩))).settled.countP
        (fun p => decide (p.1 = i)) = 1) ∧
    (∀ i ∈ ["a", "b", "c"], ∀ o : Outcome Unit,
      (i, o) ∈ (processResponses (V := Unit) (⟨["a", "b", "c"], []⟩ : RpcState Unit)
          (["b", "c", "a"].map (fun i => ⟨i, none, some (Res.ready)⟩))).settled →
      o = settleOf (Res.ready)) ∧
    (∀ (st : RpcState Unit) (m : WorkerMessage Unit Unit),
      m.id ∉ st.pending → onmessage st m = st) :=
  rpc_correlation ["a", "b", "c"] ["b", "c", "a"] (fun _ => Res.ready)
    (by decide) (by decide)

/-- C7 (amended): an error response for a pending id settles that id by
rejecting with an Error carrying the engine message; the trace in the
response is not attached to the rejection. -/
theorem rpc_error_rejects {V R : Type} (st : RpcState R) (id : String) (e : ErrInfo)
    (hp : id ∈ st.pending) :
    onmessage (V := V) st ⟨id, none, some (Res.error e)⟩ =
      { pending := st.pending.erase id,
        settled := st.settled ++ [(id, Outcome.rejected ⟨e.message, none⟩)] } := by
  have h0 : onmessage (V := V) st ⟨id, none, some (Res.error e)⟩ =
      if id ∈ st.pending then
        { pending := st.pending.erase id,
          settled := st.settled ++ [(id, settleOf (Res.error e))] }
      else st := rfl
  rw [h0, if_pos hp]
  rfl

/-- C7 witness: a concrete error response with a trace present. -/
theorem rpc_error_rejects_witness :
    onmessage (V := Unit) (⟨["a"], []⟩ : RpcState Unit)
        ⟨"a", none, some (Res.error ⟨"boom", some "tr"⟩)⟩ =
      { pending := (["a"] : List String).erase "a",
        settled := ([] : List (String × Outcome Unit)) ++
          [("a", Outcome.rejected ⟨"boom", none⟩)] } :=
  rpc_error_rejects (⟨["a"], []⟩ : RpcState Unit) "a" ⟨"boom", some "tr"⟩ (by decide)

/-- C7 counterexample: the response carries the trace tr, but the rejection
the caller receives carries only the message with no trace attached, so the
promise is not rejected with an error carrying the trace. -/
theorem rpc_error_trace_dropped :
    (onmessage (V := Unit) (⟨["a"], []⟩ : RpcState Unit)
        ⟨"a", none, some (Res.error ⟨"boom", some "tr"⟩)⟩).settled =
      [("a", Outcome.rejected ⟨"boom", none⟩)] ∧
    Outcome.rejected (R := Unit) ⟨"boom", none⟩ ≠ Outcome.rejected ⟨"boom", some "tr"⟩ := by
  exact ⟨rfl, by decide⟩

/-! ## The peer broadcaster (multitabs/broadcast.ts) -/

/-- A field value in a posted broadcast message: the message only ever
holds a string array or a number. -/
inductive FieldVal where
  | strArr (ss : List String)
  | num (n : Int)
  deriving DecidableEq

/-- The channel name chosen by the client constructor: the configured
override when present and non-empty (JS or-else treats the empty string as
absent), otherwise use-squeel: followed by the database name. -/
def broadcastChannelName (channelName : Option String) (dbName : String) : String :=
  match channelName with
  | some s => if s = "" then "use-squeel:" ++ dbName else s
  | none => "use-squeel:" ++ dbName

/-- The object Broadcaster.broadcast posts on the channel, as its ordered
field list: postMessage with the fields tables and ts (the timestamp). -/
def broadcastMessage (tables : List String) (now : Int) : List (String × FieldVal) :=
  [("tables", FieldVal.strArr tables), ("ts", FieldVal.num now)]

/-- C8 (amended): every peer broadcast message has exactly the two fields
tables (holding the changed-table set as a string array) and ts (holding a
numeric timestamp) - not changedTables and timestamp. -/
theorem broadcast_message_shape (tables : List String) (now : Int) :
    (broadcastMessage tables now).map Prod.fst = ["tables", "ts"] ∧
    ("tables", FieldVal.strArr tables) ∈ broadcastMessage tables now ∧
    (∃ n : Int, ("ts", FieldVal.num n) ∈ broadcastMessage tables now ∧ n = now) := by
  refine ⟨rfl, by simp [broadcastMessage], ⟨now, by simp [broadcastMessage], rfl⟩⟩

/-- C8 counterexample: the posted message's field names are tables and ts;
no field is named changedTables and none is named timestamp, so the message
does not have the claimed shape. -/
theorem broadcast_message_not_claimed_shape :
    (broadcastMessage ["orders"] 123).map Prod.fst = ["tables", "ts"] ∧
    "changedTables" ∉ (broadcastMessage ["orders"] 123).map Prod.fst ∧
    "timestamp" ∉ (broadcastMessage ["orders"] 123).map Prod.fst := by
  refine ⟨rfl, by decide, by decide⟩

/-! ## The reactive subscription (react/useQuery.ts) -/

/-- The status of a subscription result. -/
inductive QueryStatus where
  | loading
  | ready
  | error
  deriving DecidableEq

/-- The delivered data after post-processing: the row list, or, under the
single option, the first row or null. -/
inductive QueryData (R : Type) where
  | many (rows : List R)
  | one (row : Option R)
  deriving DecidableEq

/-- The options runQuery consults: an optional validate transform and the
single flag. -/
structure QueryOptions (R : Type) where
  validate : Option (List R → List R)
  single : Bool

/-- The per-subscription state runQuery reads and writes: the lastHash ref
and the result fields it may set. -/
structure QueryState (R : Type) where
  lastHash : String
  status : QueryStatus
  data : Option (QueryData R)
  error : Option String
  deriving DecidableEq

/-- The post-processing of fetched rows before fingerprinting: the validate
transform, then the single projection (first row or null). -/
def postProcess {R : Type} (opts : QueryOptions R) (rows0 : List R) : QueryData R :=
  let rows := match opts.validate with
    | some v => v rows0
    | none => rows0
  if opts.single then QueryData.one rows.head? else QueryData.many rows

/-- One run of the query (the runQuery callback): on success, post-process,
fingerprint with the canonical serialization, and either suppress the
update when the fingerprint equals the last delivered one or deliver ready
with the new data; on failure deliver the error state.  The serialization
JSON.stringify is an external builtin, taken as the parameter stringify;
the returned Boolean records whether setResult was invoked. -/
def runQuery {R : Type} (opts : QueryOptions R) (stringify : QueryData R → String)
    (st : QueryState R) (queryRes : Except String (List R)) :
    QueryState R × Bool :=
  match queryRes with
  | .error e => ({ st with status := QueryStatus.error, error := some e }, true)
  | .ok rows0 =>
      let data := postProcess opts rows0
      let hash := stringify data
      if hash = st.lastHash then (st, false)
      else ({ lastHash := hash, status := QueryStatus.ready,
              data := some data, error := none }, true)

theorem runQuery_ok {R : Type} (opts : QueryOptions R)
    (stringify : QueryData R → String) (st : QueryState R) (rows0 : List R) :
    runQuery opts stringify st (Except.ok rows0) =
      if stringify (postProcess opts rows0) = st.lastHash then (st, false)
      else ({ lastHash := stringify (postProcess opts rows0), status := QueryStatus.ready,
              data := some (postProcess opts rows0), error := none }, true) := rfl

/-- C9: after a delivery, a second run whose result has the same canonical
fingerprint performs no state update and does not notify the subscriber; a
run whose fingerprint differs from the last delivered one delivers status
ready with the new data. -/
theorem useQuery_fingerprint {R : Type} (opts : QueryOptions R)
    (stringify : QueryData R → String) (st0 : QueryState R)
    (rows1 rows2 : List R)
    (hsame : stringify (postProcess opts rows2) = stringify (postProcess opts rows1)) :
    (runQuery opts stringify (runQuery opts stringify st0 (Except.ok rows1)).1
        (Except.ok rows2) =
      ((runQuery opts stringify st0 (Except.ok rows1)).1, false)) ∧
    (∀ st : QueryState R, ∀ rows : List R,
      stringify (postProcess opts rows) ≠ st.lastHash →
      runQuery opts stringify st (Except.ok rows) =
        ({ lastHash := stringify (postProcess opts rows), status := QueryStatus.ready,
           data := some (postProcess opts rows), error := none }, true)) := by
  constructor
  · have hlast : (runQuery opts stringify st0 (Except.ok rows1)).1.lastHash =
        stringify (postProcess opts rows1) := by
      rw [runQuery_ok]
      split
      · rename_i h
        exact h.symm
      · rfl
    rw [runQuery_ok, if_pos (by rw [hlast, hsame])]
  · intro st rows hdiff
    rw [runQuery_ok, if_neg hdiff]

/-- C9 witness: a concrete pair of runs over the same rows (equal
fingerprints), plus a differing-fingerprint delivery. -/
theorem useQuery_fingerprint_witness :
    (runQuery (R := Nat) ⟨none, false⟩ (fun d => match d with
        | QueryData.many rows => String.mk (List.replicate rows.length 'x')
        | QueryData.one _ => "o")
        (runQuery (R := Nat) ⟨none, false⟩ (fun d => match d with
          | QueryData.many rows => String.mk (List.replicate rows.length 'x')
          | QueryData.one _ => "o") ⟨"", QueryStatus.loading, none, none⟩
          (Except.ok [7])).1
        (Except.ok [7]) =
      ((runQuery (R := Nat) ⟨none, false⟩ (fun d => match d with
        | QueryData.many rows => String.mk (List.replicate rows.length 'x')
        | QueryData.one _ => "o") ⟨"", QueryStatus.loading, none, none⟩
        (Except.ok [7])).1, false)) ∧
    (∀ st : QueryState Nat, ∀ rows : List Nat,
      (fun d => match d with
        | QueryData.many rows => String.mk (List.replicate rows.length 'x')
        | QueryData.one _ => "o") (postProcess ⟨none, false⟩ rows) ≠ st.lastHash →
      runQuery (R := Nat) ⟨none, false⟩ (fun d => match d with
        | QueryData.many rows => String.mk (List.replicate rows.length 'x')
        | QueryData.one _ => "o") st (Except.ok rows) =
        ({ lastHash := (fun d => match d with
            | QueryData.many rows => String.mk (List.replicate rows.length 'x')
            | QueryData.one _ => "o") (postProcess ⟨none, false⟩ rows),
           status := QueryStatus.ready,
           data := some (postProcess ⟨none, false⟩ rows), error := none }, true)) :=
  useQuery_fingerprint ⟨none, false⟩ (fun d => match d with
      | QueryData.many rows => String.mk (List.replicate rows.length 'x')
      | QueryData.one _ => "o")
    ⟨"", QueryStatus.loading, none, none⟩ [7] [7] rfl

/-! ## The engine collaborator

Modelled from the spec: the embedded relational engine itself is an
external collaborator (spec section 1 and section 6), so its statement
semantics is a parameter sem acting on an abstract database value, with
failures carrying the engine message.  The transaction-control statements
BEGIN/BEGIN IMMEDIATE, COMMIT and ROLLBACK follow the atomic unit-of-work
semantics the spec assigns them (section 4.2): begin snapshots the current
state, commit discards the snapshot, rollback restores it. -/

/-- The engine state: the database value plus the snapshot taken by an open
transaction, if one is active. -/
structure EngineState (Db : Type) where
  db : Db
  txSnapshot : Option Db
  deriving DecidableEq

/-- One engine.exec call: interpret transaction control, delegate every
other statement to the abstract statement semantics.  Errors leave the
engine state unchanged; the Nat in a success is the changes count. -/
def engineExec {Db V : Type} (sem : String → List V → Db → Except String (Db × Nat))
    (sql : String) (params : List V) (st : EngineState Db) :
    Except String (EngineState Db × Nat) :=
  if sql = "BEGIN IMMEDIATE" ∨ sql = "BEGIN" then
    match st.txSnapshot with
    | some _ => Except.error "cannot start a transaction within a transaction"
    | none => Except.ok ({ db := st.db, txSnapshot := some st.db }, 0)
  else if sql = "COMMIT" then
    match st.txSnapshot with
    | some _ => Except.ok ({ db := st.db, txSnapshot := none }, 0)
    | none => Except.error "cannot commit - no transaction is active"
  else if sql = "ROLLBACK" then
    match st.txSnapshot with
    | some snap => Except.ok ({ db := snap, txSnapshot := none }, 0)
    | none => Except.error "cannot rollback - no transaction is active"
  else
    match sem sql params st.db with
    | Except.ok (d, c) => Except.ok ({ db := d, txSnapshot := st.txSnapshot }, c)
    | Except.error m => Except.error m

/-! ## The worker transaction case (worker/workerEntry.ts, transaction) -/

/-- The statement loop of the worker's transaction case: execute the staged
statements in order, accumulating totalChanges, stopping at the first
failure.  Returns the engine state reached, the SQL issued in order, and
the total or the failure message. -/
def runStagedStmts {Db V : Type} (sem : String → List V → Db → Except String (Db × Nat)) :
    List (SqlStmt V) → EngineState Db → Nat → EngineState Db × List String × Except String Nat
  | [], st, total => (st, [], Except.ok total)
  | stmt :: rest, st, total =>
      match engineExec sem stmt.sql stmt.params st with
      | Except.ok (st2, c) =>
          let out := runStagedStmts sem rest st2 (total + c)
          (out.1, stmt.sql :: out.2.1, out.2.2)
      | Except.error m => (st, [stmt.sql], Except.error m)

/-- The worker's transaction case: BEGIN IMMEDIATE, the staged statements
in order, COMMIT and an execResult response carrying totalChanges; on any
failure, ROLLBACK and an error response carrying the failure message.
Returns the engine state, the SQL issued in order, and the response. -/
def workerTransaction {Db V R : Type}
    (sem : String → List V → Db → Except String (Db × Nat))
    (stmts : List (SqlStmt V)) (st : EngineState Db) :
    EngineState Db × List String × Res R :=
  match engineExec sem "BEGIN IMMEDIATE" ([] : List V) st with
  | Except.error m => (st, ["BEGIN IMMEDIATE"], Res.error ⟨m, none⟩)
  | Except.ok (st1, _) =>
      match runStagedStmts sem stmts st1 0 with
      | (st2, tr, Except.ok total) =>
          (match engineExec sem "COMMIT" ([] : List V) st2 with
          | Except.ok (st3, _) =>
              (st3, "BEGIN IMMEDIATE" :: tr ++ ["COMMIT"], Res.execResult total none)
          | Except.error m =>
              match engineExec sem "ROLLBACK" ([] : List V) st2 with
              | Except.ok (st4, _) =>
                  (st4, "BEGIN IMMEDIATE" :: tr ++ ["COMMIT", "ROLLBACK"], Res.error ⟨m, none⟩)
              | Except.error m2 =>
                  (st2, "BEGIN IMMEDIATE" :: tr ++ ["COMMIT", "ROLLBACK"], Res.error ⟨m2, none⟩))
      | (st2, tr, Except.error m) =>
          (match engineExec sem "ROLLBACK" ([] : List V) st2 with
          | Except.ok (st3, _) =>
              (st3, "BEGIN IMMEDIATE" :: tr ++ ["ROLLBACK"], Res.error ⟨m, none⟩)
          | Except.error m2 =>
              (st2, "BEGIN IMMEDIATE" :: tr ++ ["ROLLBACK"], Res.error ⟨m2, none⟩))

/-! ## The client transaction coordinator (SqueelClientImpl.transaction) -/

/-- An observable event of a transaction run: an engine statement issued in
the worker, or an invalidation notification fired by the client. -/
inductive TxEvent where
  | stmt (sql : String)
  | notify (tables : List String)
  deriving DecidableEq

/-- How the transaction call returns to the caller. -/
inductive TxOutcome where
  | ok
  | err (message : String)
  deriving DecidableEq

/-- The combined change set the client computes on success: for each staged
statement in order, add its extracted tables, or the wildcard when the
extractor returns null (SqueelClientImpl.transaction lines 122-130). -/
def transactionTables {V : Type} (stmts : List (SqlStmt V)) : List String :=
  stmts.foldl (fun acc stmt =>
    match extractTables stmt.sql with
    | some ts => ts.foldl addUnique acc
    | none => addUnique acc "*") []

/-- The client transaction coordinator applied to the statements the scope
collected: an empty staged list returns without any engine round-trip;
otherwise the staged list is submitted to the worker as one unit, and on an
execResult response the client fires exactly one invalidation notification
with the combined change set, while an error response makes the awaited
request throw so the error propagates and nothing is notified. -/
def clientTransaction {Db V R : Type}
    (sem : String → List V → Db → Except String (Db × Nat))
    (stmts : List (SqlStmt V)) (st : EngineState Db) :
    EngineState Db × List TxEvent × TxOutcome :=
  if stmts.isEmpty then (st, [], TxOutcome.ok)
  else
    let out := workerTransaction (R := R) sem stmts st
    match out.2.2 with
    | Res.execResult _ _ =>
        (out.1, out.2.1.map TxEvent.stmt ++ [TxEvent.notify (transactionTables stmts)],
          TxOutcome.ok)
    | Res.error e => (out.1, out.2.1.map TxEvent.stmt, TxOutcome.err e.message)
    | _ => (out.1, out.2.1.map TxEvent.stmt, TxOutcome.err "Transaction failed")

/-! ## Transaction atomicity lemmas -/

theorem engineExec_tx {Db V : Type} (sem : String → List V → Db → Except String (Db × Nat))
    (sql : String) (params : List V) (st st2 : EngineState Db) (c : Nat) (snap : Db)
    (htx : st.txSnapshot = some snap) (hsql : sql ≠ "COMMIT" ∧ sql ≠ "ROLLBACK")
    (h : engineExec sem sql params st = Except.ok (st2, c)) :
    st2.txSnapshot = some snap := by
  unfold engineExec at h
  split at h
  · rw [htx] at h
    simp at h
  · split at h
    · exact absurd (by assumption) hsql.1
    · split at h
      · exact absurd (by assumption) hsql.2
      · split at h
        · rename_i p hsem
          cases h
          exact htx
        · simp at h

theorem runStagedStmts_tx {Db V : Type} (sem : String → List V → Db → Except String (Db × Nat)) :
    ∀ (stmts : List (SqlStmt V)) (st : EngineState Db) (total : Nat) (snap : Db),
      st.txSnapshot = some snap →
      (∀ s ∈ stmts, s.sql ≠ "COMMIT" ∧ s.sql ≠ "ROLLBACK") →
      (runStagedStmts sem stmts st total).1.txSnapshot = some snap := by
  intro stmts
  induction stmts with
  | nil => intro st total snap htx _; exact htx
  | cons stmt rest ih =>
      intro st total snap htx hctl
      rw [runStagedStmts]
      cases hee : engineExec sem stmt.sql stmt.params st with
      | ok p =>
          match p, hee with
          | (st2, c), hee =>
              have h2 : st2.txSnapshot = some snap :=
                engineExec_tx sem stmt.sql stmt.params st st2 c snap htx
                  (hctl stmt (by simp)) hee
              exact ih st2 (total + c) snap h2 (fun s hs => hctl s (by simp [hs]))
      | error m => exact htx

theorem engineExec_begin {Db V : Type} (sem : String → List V → Db → Except String (Db × Nat))
    (st : EngineState Db) (htx : st.txSnapshot = none) :
    engineExec sem "BEGIN IMMEDIATE" ([] : List V) st =
      Except.ok ({ db := st.db, txSnapshot := some st.db }, 0) := by
  unfold engineExec
  rw [if_pos (Or.inl rfl), htx]

theorem engineExec_commit {Db V : Type} (sem : String → List V → Db → Except String (Db × Nat))
    (st : EngineState Db) (snap : Db) (htx : st.txSnapshot = some snap) :
    engineExec sem "COMMIT" ([] : List V) st =
      Except.ok ({ db := st.db, txSnapshot := none }, 0) := by
  unfold engineExec
  rw [if_neg (by decide), if_pos rfl, htx]

theorem engineExec_rollback {Db V : Type} (sem : String → List V → Db → Except String (Db × Nat))
    (st : EngineState Db) (snap : Db) (htx : st.txSnapshot = some snap) :
    engineExec sem "ROLLBACK" ([] : List V) st =
      Except.ok ({ db := snap, txSnapshot := none }, 0) := by
  unfold engineExec
  rw [if_neg (by decide), if_neg (by decide), if_pos rfl, htx]

theorem workerTransaction_failure {Db V R : Type}
    (sem : String → List V → Db → Except String (Db × Nat))
    (stmts : List (SqlStmt V)) (st : EngineState Db) (msg : String)
    (htx : st.txSnapshot = none)
    (hctl : ∀ s ∈ stmts, s.sql ≠ "COMMIT" ∧ s.sql ≠ "ROLLBACK")
    (hfail : (runStagedStmts sem stmts ⟨st.db, some st.db⟩ 0).2.2 = Except.error msg) :
    workerTransaction (R := R) sem stmts st =
      (⟨st.db, none⟩,
       "BEGIN IMMEDIATE" :: (runStagedStmts sem stmts ⟨st.db, some st.db⟩ 0).2.1
         ++ ["ROLLBACK"],
       Res.error ⟨msg, none⟩) := by
  rcases hP : runStagedStmts sem stmts ⟨st.db, some st.db⟩ 0 with ⟨st2, tr, r⟩
  have hr : r = Except.error msg := by
    rw [hP] at hfail
    exact hfail
  subst hr
  have htx2 : st2.txSnapshot = some st.db := by
    have := runStagedStmts_tx sem stmts ⟨st.db, some st.db⟩ 0 st.db rfl hctl
    rw [hP] at this
    exact this
  unfold workerTransaction
  simp only [engineExec_begin sem st htx, hP, engineExec_rollback sem st2 st.db htx2]

/-- C1: for a non-empty staged list containing a failing statement, the
coordinator issues ROLLBACK after the failure, the caller gets the original
engine error back, the database value is exactly the one from before the
call (so every query returns the same rows), and no invalidation is fired:
no partial subset of the staged statements is committed. -/
theorem transaction_failure_atomic {Db V R : Type}
    (sem : String → List V → Db → Except String (Db × Nat))
    (stmts : List (SqlStmt V)) (st : EngineState Db) (msg : String)
    (hne : stmts ≠ [])
    (htx : st.txSnapshot = none)
    (hctl : ∀ s ∈ stmts, s.sql ≠ "COMMIT" ∧ s.sql ≠ "ROLLBACK")
    (hfail : (runStagedStmts sem stmts ⟨st.db, some st.db⟩ 0).2.2 = Except.error msg) :
    clientTransaction (R := R) sem stmts st =
      (⟨st.db, none⟩,
       ("BEGIN IMMEDIATE" :: (runStagedStmts sem stmts ⟨st.db, some st.db⟩ 0).2.1
         ++ ["ROLLBACK"]).map TxEvent.stmt,
       TxOutcome.err msg) ∧
    (clientTransaction (R := R) sem stmts st).1.db = st.db ∧
    (∀ ts, TxEvent.notify ts ∉ (clientTransaction (R := R) sem stmts st).2.1) ∧
    (clientTransaction (R := R) sem stmts st).2.1.getLast? =
      some (TxEvent.stmt "ROLLBACK") := by
  have hmain : clientTransaction (R := R) sem stmts st =
      (⟨st.db, none⟩,
       ("BEGIN IMMEDIATE" :: (runStagedStmts sem stmts ⟨st.db, some st.db⟩ 0).2.1
         ++ ["ROLLBACK"]).map TxEvent.stmt,
       TxOutcome.err msg) := by
    unfold clientTransaction
    rw [if_neg (by simpa using hne)]
    rw [workerTransaction_failure (R := R) sem stmts st msg htx hctl hfail]
  refine ⟨hmain, by rw [hmain], ?_, ?_⟩
  · intro ts hmem
    rw [hmain] at hmem
    simp only [List.mem_map] at hmem
    rcases hmem with ⟨s, _, hs⟩
    exact TxEvent.noConfusion hs
  · rw [hmain]
    simp only []
    rw [List.getLast?_eq_getLast _ (by simp)]
    simp [List.getLast_map]

theorem workerTransaction_success {Db V R : Type}
    (sem : String → List V → Db → Except String (Db × Nat))
    (stmts : List (SqlStmt V)) (st : EngineState Db) (total : Nat)
    (htx : st.txSnapshot = none)
    (hctl : ∀ s ∈ stmts, s.sql ≠ "COMMIT" ∧ s.sql ≠ "ROLLBACK")
    (hok : (runStagedStmts sem stmts ⟨st.db, some st.db⟩ 0).2.2 = Except.ok total) :
    workerTransaction (R := R) sem stmts st =
      (⟨(runStagedStmts sem stmts ⟨st.db, some st.db⟩ 0).1.db, none⟩,
       "BEGIN IMMEDIATE" :: (runStagedStmts sem stmts ⟨st.db, some st.db⟩ 0).2.1
         ++ ["COMMIT"],
       Res.execResult total none) := by
  rcases hP : runStagedStmts sem stmts ⟨st.db, some st.db⟩ 0 with ⟨st2, tr, r⟩
  have hr : r = Except.ok total := by
    rw [hP] at hok
    exact hok
  subst hr
  have htx2 : st2.txSnapshot = some st.db := by
    have := runStagedStmts_tx sem stmts ⟨st.db, some st.db⟩ 0 st.db rfl hctl
    rw [hP] at this
    exact this
  unfold workerTransaction
  simp only [engineExec_begin sem st htx, hP, engineExec_commit sem st2 st.db htx2]

/-- True exactly for an invalidation notification event. -/
def isNotifyEvent (e : TxEvent) : Bool :=
  match e with
  | TxEvent.notify _ => true
  | TxEvent.stmt _ => false

theorem mem_addUnique {acc : List String} {x t : String} :
    t ∈ addUnique acc x ↔ t ∈ acc ∨ t = x := by
  unfold addUnique
  split
  · rename_i hx
    constructor
    · exact Or.inl
    · rintro (h | rfl)
      · exact h
      · exact hx
  · simp

theorem mem_foldl_addUnique :
    ∀ (ts acc : List String) (t : String),
      t ∈ ts.foldl addUnique acc ↔ t ∈ acc ∨ t ∈ ts := by
  intro ts
  induction ts with
  | nil => simp
  | cons x xs ih =>
      intro acc t
      simp only [List.foldl_cons]
      rw [ih, mem_addUnique, List.mem_cons]
      tauto

theorem mem_transactionTables_aux {V : Type} :
    ∀ (stmts : List (SqlStmt V)) (acc : List String) (t : String),
      t ∈ stmts.foldl (fun acc stmt =>
          match extractTables stmt.sql with
          | some ts => ts.foldl addUnique acc
          | none => addUnique acc "*") acc ↔
        t ∈ acc ∨ (∃ s ∈ stmts, ∃ ts, extractTables s.sql = some ts ∧ t ∈ ts) ∨
          (t = "*" ∧ ∃ s ∈ stmts, extractTables s.sql = none) := by
  intro stmts
  induction stmts with
  | nil => simp
  | cons s ss ih =>
      intro acc t
      simp only [List.foldl_cons]
      rw [ih]
      cases hx : extractTables s.sql with
      | none =>
          rw [mem_addUnique]
          simp only [List.mem_cons, hx]
          constructor
          · rintro ((h | rfl) | h | h)
            · exact Or.inl h
            · exact Or.inr (Or.inr ⟨rfl, s, Or.inl rfl, hx⟩)
            · rcases h with ⟨s2, hs2, hts⟩
              exact Or.inr (Or.inl ⟨s2, Or.inr hs2, hts⟩)
            · rcases h with ⟨ht, s2, hs2, hn⟩
              exact Or.inr (Or.inr ⟨ht, s2, Or.inr hs2, hn⟩)
          · rintro (h | h | h)
            · exact Or.inl (Or.inl h)
            · rcases h with ⟨s2, hs2 | hs2, ts, hts, hmem⟩
              · subst hs2
                rw [hx] at hts
                exact absurd hts (by simp)
              · exact Or.inr (Or.inl ⟨s2, hs2, ts, hts, hmem⟩)
            · rcases h with ⟨ht, s2, hs2 | hs2, hn⟩
              · exact Or.inl (Or.inr ht)
              · exact Or.inr (Or.inr ⟨ht, s2, hs2, hn⟩)
      | some ts =>
          rw [mem_foldl_addUnique]
          simp only [List.mem_cons]
          constructor
          · rintro ((h | h) | h | h)
            · exact Or.inl h
            · exact Or.inr (Or.inl ⟨s, Or.inl rfl, ts, hx, h⟩)
            · rcases h with ⟨s2, hs2, ts2, hts2, hmem⟩
              exact Or.inr (Or.inl ⟨s2, Or.inr hs2, ts2, hts2, hmem⟩)
            · rcases h with ⟨ht, s2, hs2, hn⟩
              exact Or.inr (Or.inr ⟨ht, s2, Or.inr hs2, hn⟩)
          · rintro (h | h | h)
            · exact Or.inl (Or.inl h)
            · rcases h with ⟨s2, hs2 | hs2, ts2, hts2, hmem⟩
              · subst hs2
                rw [hx] at hts2
                have hts : ts = ts2 := by
                  injection hts2
                exact Or.inl (Or.inr (hts ▸ hmem))
              · exact Or.inr (Or.inl ⟨s2, hs2, ts2, hts2, hmem⟩)
            · rcases h with ⟨ht, s2, hs2 | hs2, hn⟩
              · subst hs2
                rw [hx] at hn
                exact absurd hn (by simp)
              · exact Or.inr (Or.inr ⟨ht, s2, hs2, hn⟩)

theorem mem_transactionTables {V : Type} (stmts : List (SqlStmt V)) (t : String) :
    t ∈ transactionTables stmts ↔
      (∃ s ∈ stmts, ∃ ts, extractTables s.sql = some ts ∧ t ∈ ts) ∨
        (t = "*" ∧ ∃ s ∈ stmts, extractTables s.sql = none) := by
  unfold transactionTables
  rw [mem_transactionTables_aux]
  simp

/-- C4: for a non-empty staged list whose statements all succeed, the
client fires exactly one invalidation notification, as the last event after
the COMMIT issued in the worker, carrying the union over the staged
statements of their extracted table sets with the wildcard contributed for
each statement whose tables cannot be determined; and when a transaction
fails, no notification is fired at all. -/
theorem transaction_invalidation {Db V R : Type}
    (sem : String → List V → Db → Except String (Db × Nat))
    (stmts : List (SqlStmt V)) (st : EngineState Db) (total : Nat)
    (hne : stmts ≠ [])
    (htx : st.txSnapshot = none)
    (hctl : ∀ s ∈ stmts, s.sql ≠ "COMMIT" ∧ s.sql ≠ "ROLLBACK")
    (hok : (runStagedStmts sem stmts ⟨st.db, some st.db⟩ 0).2.2 = Except.ok total) :
    clientTransaction (R := R) sem stmts st =
      (⟨(runStagedStmts sem stmts ⟨st.db, some st.db⟩ 0).1.db, none⟩,
       ("BEGIN IMMEDIATE" :: (runStagedStmts sem stmts ⟨st.db, some st.db⟩ 0).2.1
         ++ ["COMMIT"]).map TxEvent.stmt ++ [TxEvent.notify (transactionTables stmts)],
       TxOutcome.ok) ∧
    (clientTransaction (R := R) sem stmts st).2.1.countP isNotifyEvent = 1 ∧
    (clientTransaction (R := R) sem stmts st).2.1.getLast? =
      some (TxEvent.notify (transactionTables stmts)) ∧
    (clientTransaction (R := R) sem stmts st).2.1.dropLast.getLast? =
      some (TxEvent.stmt "COMMIT") ∧
    (∀ t, t ∈ transactionTables stmts ↔
      ((∃ s ∈ stmts, ∃ ts, extractTables s.sql = some ts ∧ t ∈ ts) ∨
       (t = "*" ∧ ∃ s ∈ stmts, extractTables s.sql = none))) ∧
    (∀ (stmts2 : List (SqlStmt V)) (st2 : EngineState Db) (msg : String),
      st2.txSnapshot = none →
      (∀ s ∈ stmts2, s.sql ≠ "COMMIT" ∧ s.sql ≠ "ROLLBACK") →
      (runStagedStmts sem stmts2 ⟨st2.db, some st2.db⟩ 0).2.2 = Except.error msg →
      ∀ ts, TxEvent.notify ts ∉ (clientTransaction (R := R) sem stmts2 st2).2.1) := by
  have hmain : clientTransaction (R := R) sem stmts st =
      (⟨(runStagedStmts sem stmts ⟨st.db, some st.db⟩ 0).1.db, none⟩,
       ("BEGIN IMMEDIATE" :: (runStagedStmts sem stmts ⟨st.db, some st.db⟩ 0).2.1
         ++ ["COMMIT"]).map TxEvent.stmt ++ [TxEvent.notify (transactionTables stmts)],
       TxOutcome.ok) := by
    unfold clientTransaction
    rw [if_neg (by simpa using hne)]
    rw [workerTransaction_success (R := R) sem stmts st total htx hctl hok]
  refine ⟨hmain, ?_, ?_, ?_, fun t => mem_transactionTables stmts t, ?_⟩
  · rw [hmain]
    rw [List.countP_append]
    have hz : List.countP isNotifyEvent
        (List.map TxEvent.stmt
          ("BEGIN IMMEDIATE" :: (runStagedStmts sem stmts ⟨st.db, some st.db⟩ 0).2.1
            ++ ["COMMIT"])) = 0 := by
      rw [List.countP_eq_zero]
      intro e he
      rcases List.mem_map.mp he with ⟨a, -, rfl⟩
      simp [isNotifyEvent]
    rw [hz]
    simp [List.countP_cons, isNotifyEvent]
  · rw [hmain]
    simp only []
    rw [List.getLast?_concat]
  · rw [hmain]
    simp only []
    rw [List.dropLast_concat]
    rw [List.getLast?_eq_getLast _ (by simp)]
    simp [List.getLast_map]
  · intro stmts2 st2 msg htx2 hctl2 hfail2 ts hmem
    have hne2 : ¬stmts2.isEmpty := by
      intro hemp
      rw [List.isEmpty_iff] at hemp
      subst hemp
      simp [runStagedStmts] at hfail2
    have hmainf := workerTransaction_failure (R := R) sem stmts2 st2 msg htx2 hctl2 hfail2
    unfold clientTransaction at hmem
    rw [if_neg hne2, hmainf] at hmem
    simp only [List.mem_map] at hmem
    rcases hmem with ⟨a, _, ha⟩
    exact TxEvent.noConfusion ha

/-- A concrete example engine semantics for witnesses: the database is a
counter, every statement applies one change, and the statement bad fails
with the message boom. -/
def semEx : String → List Unit → Nat → Except String (Nat × Nat) :=
  fun sql _ d => if sql = "bad" then Except.error "boom" else Except.ok (d + 1, 1)

/-- A staged list whose second statement fails under semEx. -/
def stmtsFailEx : List (SqlStmt Unit) :=
  [⟨"INSERT INTO todos (title) VALUES (?)", []⟩, ⟨"bad", []⟩,
   ⟨"UPDATE users SET done = 1", []⟩]

/-- A staged list whose statements all succeed under semEx. -/
def stmtsOkEx : List (SqlStmt Unit) :=
  [⟨"INSERT INTO todos (title) VALUES (?)", []⟩, ⟨"DELETE FROM archive", []⟩]

/-- C1 witness: a concrete three-statement transaction whose second
statement fails. -/
theorem transaction_failure_atomic_witness :
    clientTransaction (R := Unit) semEx stmtsFailEx ⟨0, none⟩ =
      (⟨0, none⟩,
       ("BEGIN IMMEDIATE" :: (runStagedStmts semEx stmtsFailEx ⟨0, some 0⟩ 0).2.1
         ++ ["ROLLBACK"]).map TxEvent.stmt,
       TxOutcome.err "boom") ∧
    (clientTransaction (R := Unit) semEx stmtsFailEx ⟨0, none⟩).1.db = 0 ∧
    (∀ ts, TxEvent.notify ts ∉
      (clientTransaction (R := Unit) semEx stmtsFailEx ⟨0, none⟩).2.1) ∧
    (clientTransaction (R := Unit) semEx stmtsFailEx ⟨0, none⟩).2.1.getLast? =
      some (TxEvent.stmt "ROLLBACK") :=
  transaction_failure_atomic semEx stmtsFailEx ⟨0, none⟩ "boom"
    (by decide) rfl (by decide) rfl

/-- C4 witness: a concrete two-statement transaction with all statements
succeeding. -/
theorem transaction_invalidation_witness :
    clientTransaction (R := Unit) semEx stmtsOkEx ⟨0, none⟩ =
      (⟨(runStagedStmts semEx stmtsOkEx ⟨0, some 0⟩ 0).1.db, none⟩,
       ("BEGIN IMMEDIATE" :: (runStagedStmts semEx stmtsOkEx ⟨0, some 0⟩ 0).2.1
         ++ ["COMMIT"]).map TxEvent.stmt ++
         [TxEvent.notify (transactionTables stmtsOkEx)],
       TxOutcome.ok) ∧
    (clientTransaction (R := Unit) semEx stmtsOkEx ⟨0, none⟩).2.1.countP
      isNotifyEvent = 1 ∧
    (clientTransaction (R := Unit) semEx stmtsOkEx ⟨0, none⟩).2.1.getLast? =
      some (TxEvent.notify (transactionTables stmtsOkEx)) ∧
    (clientTransaction (R := Unit) semEx stmtsOkEx ⟨0, none⟩).2.1.dropLast.getLast? =
      some (TxEvent.stmt "COMMIT") ∧
    (∀ t, t ∈ transactionTables stmtsOkEx ↔
      ((∃ s ∈ stmtsOkEx, ∃ ts, extractTables s.sql = some ts ∧ t ∈ ts) ∨
       (t = "*" ∧ ∃ s ∈ stmtsOkEx, extractTables s.sql = none))) ∧
    (∀ (stmts2 : List (SqlStmt Unit)) (st2 : EngineState Nat) (msg : String),
      st2.txSnapshot = none →
      (∀ s ∈ stmts2, s.sql ≠ "COMMIT" ∧ s.sql ≠ "ROLLBACK") →
      (runStagedStmts semEx stmts2 ⟨st2.db, some st2.db⟩ 0).2.2 = Except.error msg →
      ∀ ts, TxEvent.notify ts ∉
        (clientTransaction (R := Unit) semEx stmts2 st2).2.1) :=
  transaction_invalidation semEx stmtsOkEx ⟨0, none⟩ 2
    (by decide) rfl (by decide) rfl

/-! ## The migration applier (db/migrations.ts)

The ledger table is represented directly: the migration-relevant database
value is the ledger id column (in insertion order) plus an abstract schema
value the up scripts act on through the abstract semantics runUp. -/

/-- The database value the applier works on. -/
structure MigDb (S : Type) where
  ledger : List Int
  schema : S
  deriving DecidableEq

/-- The single-quote character as a string. -/
def sq : String := String.mk [Char.ofNat 39]

/-- The ledger DDL issued first by applyMigrations. -/
def createLedgerSql : String :=
  "CREATE TABLE IF NOT EXISTS __use_squeel_migrations (id INTEGER PRIMARY KEY, applied_at TEXT NOT NULL)"

/-- The ledger row insert issued inside each migration transaction. -/
def insertLedgerSql : String :=
  "INSERT INTO __use_squeel_migrations (id, applied_at) VALUES (?, datetime(" ++
    sq ++ "now" ++ sq ++ "))"

/-- The engine statement semantics during migration: the ledger DDL is
idempotent (the ledger is always represented), the ledger insert appends
the id under the primary-key constraint, and every other statement is an up
script interpreted by runUp on the schema. -/
def migSem {S : Type} (runUp : String → S → Except String S)
    (sql : String) (params : List Int) (d : MigDb S) : Except String (MigDb S × Nat) :=
  if sql = createLedgerSql then Except.ok (d, 0)
  else if sql = insertLedgerSql then
    match params with
    | [n] =>
        if n ∈ d.ledger then
          Except.error "UNIQUE constraint failed: __use_squeel_migrations.id"
        else Except.ok ({ d with ledger := d.ledger ++ [n] }, 1)
    | _ => Except.error "bad parameter list"
  else
    match runUp sql d.schema with
    | Except.ok s2 => Except.ok ({ d with schema := s2 }, 0)
    | Except.error m => Except.error m

/-- The sort applyMigrations performs: a stable comparator sort by
ascending id, modelling Array.prototype.sort with (a, b) =&gt; a.id - b.id. -/
def sortMigrations (l : List Migration) : List Migration :=
  List.insertionSort (fun a b => a.id ≤ b.id) l

/-- The per-migration loop of applyMigrations over the sorted list, with
the applied-id set loaded once before the loop: skip applied ids; for each
pending migration run BEGIN, the up script, the ledger insert and COMMIT,
and on any failure ROLLBACK and propagate, aborting the sequence.  Returns
the engine state, the SQL issued in order, and unit or the error. -/
def applyMigrationsGo {S : Type} (runUp : String → S → Except String S)
    (appliedIds : List Int) :
    List Migration → EngineState (MigDb S) →
      EngineState (MigDb S) × List String × Except String Unit
  | [], st => (st, [], Except.ok ())
  | m :: rest, st =>
      if m.id ∈ appliedIds then applyMigrationsGo runUp appliedIds rest st
      else
        match engineExec (migSem runUp) "BEGIN" ([] : List Int) st with
        | Except.error e => (st, ["BEGIN"], Except.error e)
        | Except.ok (st1, _) =>
            match engineExec (migSem runUp) m.up ([] : List Int) st1 with
            | Except.error e =>
                (match engineExec (migSem runUp) "ROLLBACK" ([] : List Int) st1 with
                | Except.ok (st2, _) =>
                    (st2, ["BEGIN", m.up, "ROLLBACK"], Except.error e)
                | Except.error e2 =>
                    (st1, ["BEGIN", m.up, "ROLLBACK"], Except.error e2))
            | Except.ok (st2, _) =>
                match engineExec (migSem runUp) insertLedgerSql [m.id] st2 with
                | Except.error e =>
                    (match engineExec (migSem runUp) "ROLLBACK" ([] : List Int) st2 with
                    | Except.ok (st3, _) =>
                        (st3, ["BEGIN", m.up, insertLedgerSql, "ROLLBACK"], Except.error e)
                    | Except.error e2 =>
                        (st2, ["BEGIN", m.up, insertLedgerSql, "ROLLBACK"], Except.error e2))
                | Except.ok (st3, _) =>
                    match engineExec (migSem runUp) "COMMIT" ([] : List Int) st3 with
                    | Except.error e =>
                        (match engineExec (migSem runUp) "ROLLBACK" ([] : List Int) st3 with
                        | Except.ok (st4, _) =>
                            (st4, ["BEGIN", m.up, insertLedgerSql, "COMMIT", "ROLLBACK"],
                             Except.error e)
                        | Except.error e2 =>
                            (st3, ["BEGIN", m.up, insertLedgerSql, "COMMIT", "ROLLBACK"],
                             Except.error e2))
                    | Except.ok (st4, _) =>
                        let out := applyMigrationsGo runUp appliedIds rest st4
                        (out.1, ["BEGIN", m.up, insertLedgerSql, "COMMIT"] ++ out.2.1,
                         out.2.2)

/-- applyMigrations: ensure the ledger table exists, load the applied ids
once, sort the supplied migrations by ascending id, and run the loop. -/
def applyMigrations {S : Type} (runUp : String → S → Except String S)
    (migs : List Migration) (st : EngineState (MigDb S)) :
    EngineState (MigDb S) × List String × Except String Unit :=
  match engineExec (migSem runUp) createLedgerSql ([] : List Int) st with
  | Except.error e => (st, [createLedgerSql], Except.error e)
  | Except.ok (st0, _) =>
      let appliedIds := st0.db.ledger
      let out := applyMigrationsGo runUp appliedIds (sortMigrations migs) st0
      (out.1, createLedgerSql :: out.2.1, out.2.2)

/-- An up script that is neither transaction control nor one of the
applier's own ledger statements. -/
def ordinaryUp (s : String) : Prop :=
  s ≠ "BEGIN" ∧ s ≠ "BEGIN IMMEDIATE" ∧ s ≠ "COMMIT" ∧ s ≠ "ROLLBACK" ∧
    s ≠ createLedgerSql ∧ s ≠ insertLedgerSql

instance : DecidablePred ordinaryUp := fun s => by
  unfold ordinaryUp
  infer_instance

/-! ## Migration lemmas -/

theorem engineExec_mig_begin {S : Type} (runUp : String → S → Except String S)
    (st : EngineState (MigDb S)) (htx : st.txSnapshot = none) :
    engineExec (migSem runUp) "BEGIN" ([] : List Int) st =
      Except.ok ({ db := st.db, txSnapshot := some st.db }, 0) := by
  unfold engineExec
  rw [if_pos (Or.inr rfl), htx]

theorem engineExec_mig_up {S : Type} (runUp : String → S → Except String S)
    (s : String) (st : EngineState (MigDb S)) (hord : ordinaryUp s) :
    engineExec (migSem runUp) s ([] : List Int) st =
      match runUp s st.db.schema with
      | Except.ok s2 =>
          Except.ok (⟨⟨st.db.ledger, s2⟩, st.txSnapshot⟩, 0)
      | Except.error m => Except.error m := by
  obtain ⟨h1, h2, h3, h4, h5, h6⟩ := hord
  unfold engineExec migSem
  rw [if_neg (by tauto), if_neg h3, if_neg h4, if_neg h5, if_neg h6]
  cases hu : runUp s st.db.schema with
  | ok s2 => rfl
  | error m => rfl

theorem engineExec_mig_insert {S : Type} (runUp : String → S → Except String S)
    (n : Int) (st : EngineState (MigDb S)) :
    engineExec (migSem runUp) insertLedgerSql [n] st =
      if n ∈ st.db.ledger then
        Except.error "UNIQUE constraint failed: __use_squeel_migrations.id"
      else Except.ok (⟨⟨st.db.ledger ++ [n], st.db.schema⟩, st.txSnapshot⟩, 1) := by
  unfold engineExec migSem
  rw [if_neg (by decide), if_neg (by decide), if_neg (by decide),
    if_neg (by decide), if_pos rfl]
  by_cases hin : n ∈ st.db.ledger
  · simp only [if_pos hin]
  · simp only [if_neg hin]

theorem applyGo_cons_pending {S : Type} (runUp : String → S → Except String S)
    (appliedIds : List Int) (m : Migration) (rest : List Migration)
    (st : EngineState (MigDb S))
    (htx : st.txSnapshot = none) (hord : ordinaryUp m.up) (hnin : m.id ∉ appliedIds) :
    applyMigrationsGo runUp appliedIds (m :: rest) st =
      match runUp m.up st.db.schema with
      | Except.error e => (⟨st.db, none⟩, ["BEGIN", m.up, "ROLLBACK"], Except.error e)
      | Except.ok s2 =>
          if m.id ∈ st.db.ledger then
            (⟨st.db, none⟩, ["BEGIN", m.up, insertLedgerSql, "ROLLBACK"],
             Except.error "UNIQUE constraint failed: __use_squeel_migrations.id")
          else
            (let out := applyMigrationsGo runUp appliedIds rest
              ⟨⟨st.db.ledger ++ [m.id], s2⟩, none⟩
            (out.1, ["BEGIN", m.up, insertLedgerSql, "COMMIT"] ++ out.2.1, out.2.2)) := by
  rw [applyMigrationsGo]
  rw [if_neg hnin]
  rw [engineExec_mig_begin runUp st htx]
  have hup := engineExec_mig_up runUp m.up
    (⟨st.db, some st.db⟩ : EngineState (MigDb S)) hord
  cases hu : runUp m.up st.db.schema with
  | error e =>
      rw [hu] at hup
      simp only [hup,
        engineExec_rollback (migSem runUp)
          (⟨st.db, some st.db⟩ : EngineState (MigDb S)) st.db rfl]
  | ok s2 =>
      rw [hu] at hup
      simp only [hup]
      rw [engineExec_mig_insert runUp m.id ⟨⟨st.db.ledger, s2⟩, some st.db⟩]
      by_cases hin : m.id ∈ st.db.ledger
      · rw [if_pos hin, if_pos hin]
        simp only [engineExec_rollback (migSem runUp)
          (⟨⟨st.db.ledger, s2⟩, some st.db⟩ : EngineState (MigDb S)) st.db rfl]
      · rw [if_neg hin, if_neg hin]
        simp only [engineExec_commit (migSem runUp)
          (⟨⟨st.db.ledger ++ [m.id], s2⟩, some st.db⟩ : EngineState (MigDb S)) st.db rfl]

theorem applyGo_pending_upfail {S : Type} (runUp : String → S → Except String S)
    (appliedIds : List Int) (m : Migration) (rest : List Migration)
    (st : EngineState (MigDb S)) (e : String)
    (htx : st.txSnapshot = none) (hord : ordinaryUp m.up) (hnin : m.id ∉ appliedIds)
    (hu : runUp m.up st.db.schema = Except.error e) :
    applyMigrationsGo runUp appliedIds (m :: rest) st =
      (⟨st.db, none⟩, ["BEGIN", m.up, "ROLLBACK"], Except.error e) := by
  rw [applyGo_cons_pending runUp appliedIds m rest st htx hord hnin]
  simp only [hu]

theorem applyGo_pending_dup {S : Type} (runUp : String → S → Except String S)
    (appliedIds : List Int) (m : Migration) (rest : List Migration)
    (st : EngineState (MigDb S)) (s2 : S)
    (htx : st.txSnapshot = none) (hord : ordinaryUp m.up) (hnin : m.id ∉ appliedIds)
    (hu : runUp m.up st.db.schema = Except.ok s2) (hin : m.id ∈ st.db.ledger) :
    applyMigrationsGo runUp appliedIds (m :: rest) st =
      (⟨st.db, none⟩, ["BEGIN", m.up, insertLedgerSql, "ROLLBACK"],
       Except.error "UNIQUE constraint failed: __use_squeel_migrations.id") := by
  rw [applyGo_cons_pending runUp appliedIds m rest st htx hord hnin]
  simp only [hu, if_pos hin]

theorem applyGo_pending_ok {S : Type} (runUp : String → S → Except String S)
    (appliedIds : List Int) (m : Migration) (rest : List Migration)
    (st : EngineState (MigDb S)) (s2 : S)
    (htx : st.txSnapshot = none) (hord : ordinaryUp m.up) (hnin : m.id ∉ appliedIds)
    (hu : runUp m.up st.db.schema = Except.ok s2) (hin : m.id ∉ st.db.ledger) :
    applyMigrationsGo runUp appliedIds (m :: rest) st =
      ((applyMigrationsGo runUp appliedIds rest ⟨⟨st.db.ledger ++ [m.id], s2⟩, none⟩).1,
       ["BEGIN", m.up, insertLedgerSql, "COMMIT"] ++
         (applyMigrationsGo runUp appliedIds rest
           ⟨⟨st.db.ledger ++ [m.id], s2⟩, none⟩).2.1,
       (applyMigrationsGo runUp appliedIds rest
         ⟨⟨st.db.ledger ++ [m.id], s2⟩, none⟩).2.2) := by
  rw [applyGo_cons_pending runUp appliedIds m rest st htx hord hnin]
  simp only [hu, if_neg hin]

theorem applyGo_skip_all {S : Type} (runUp : String → S → Except String S)
    (appliedIds : List Int) :
    ∀ (migs : List Migration) (st : EngineState (MigDb S)),
      (∀ m ∈ migs, m.id ∈ appliedIds) →
      applyMigrationsGo runUp appliedIds migs st = (st, [], Except.ok ()) := by
  intro migs
  induction migs with
  | nil => intro st _; rfl
  | cons m rest ih =>
      intro st hall
      rw [applyMigrationsGo, if_pos (hall m (by simp))]
      exact ih st (fun m2 h2 => hall m2 (by simp [h2]))

theorem applyGo_append {S : Type} (runUp : String → S → Except String S)
    (appliedIds : List Int) :
    ∀ (pre rest : List Migration) (st : EngineState (MigDb S)),
      st.txSnapshot = none →
      (∀ m ∈ pre, ordinaryUp m.up) →
      applyMigrationsGo runUp appliedIds (pre ++ rest) st =
        (match (applyMigrationsGo runUp appliedIds pre st).2.2 with
        | Except.ok _ =>
            ((applyMigrationsGo runUp appliedIds rest
                (applyMigrationsGo runUp appliedIds pre st).1).1,
             (applyMigrationsGo runUp appliedIds pre st).2.1 ++
               (applyMigrationsGo runUp appliedIds rest
                 (applyMigrationsGo runUp appliedIds pre st).1).2.1,
             (applyMigrationsGo runUp appliedIds rest
               (applyMigrationsGo runUp appliedIds pre st).1).2.2)
        | Except.error _ => applyMigrationsGo runUp appliedIds pre st) := by
  intro pre
  induction pre with
  | nil =>
      intro rest st _ _
      simp [applyMigrationsGo]
  | cons m pre2 ih =>
      intro rest st htx hord
      by_cases hskip : m.id ∈ appliedIds
      · rw [List.cons_append, applyMigrationsGo, if_pos hskip,
          applyMigrationsGo, if_pos hskip]
        exact ih rest st htx (fun m2 h2 => hord m2 (by simp [h2]))
      · cases hu : runUp m.up st.db.schema with
        | error e =>
            rw [List.cons_append,
              applyGo_pending_upfail runUp appliedIds m (pre2 ++ rest) st e htx
                (hord m (by simp)) hskip hu,
              applyGo_pending_upfail runUp appliedIds m pre2 st e htx
                (hord m (by simp)) hskip hu]
        | ok s2 =>
            by_cases hin : m.id ∈ st.db.ledger
            · rw [List.cons_append,
                applyGo_pending_dup runUp appliedIds m (pre2 ++ rest) st s2 htx
                  (hord m (by simp)) hskip hu hin,
                applyGo_pending_dup runUp appliedIds m pre2 st s2 htx
                  (hord m (by simp)) hskip hu hin]
            · rw [List.cons_append,
                applyGo_pending_ok runUp appliedIds m (pre2 ++ rest) st s2 htx
                  (hord m (by simp)) hskip hu hin,
                applyGo_pending_ok runUp appliedIds m pre2 st s2 htx
                  (hord m (by simp)) hskip hu hin,
                ih rest ⟨⟨st.db.ledger ++ [m.id], s2⟩, none⟩ rfl
                  (fun m2 h2 => hord m2 (by simp [h2]))]
              cases hres : (applyMigrationsGo runUp appliedIds pre2
                  ⟨⟨st.db.ledger ++ [m.id], s2⟩, none⟩).2.2 with
              | ok u => simp [hres]
              | error e => simp [hres]

theorem applyGo_ok_ledger {S : Type} (runUp : String → S → Except String S)
    (appliedIds : List Int) :
    ∀ (migs : List Migration) (st : EngineState (MigDb S)),
      st.txSnapshot = none →
      (∀ m ∈ migs, ordinaryUp m.up) →
      (∀ i ∈ appliedIds, i ∈ st.db.ledger) →
      (applyMigrationsGo runUp appliedIds migs st).2.2 = Except.ok () →
      (applyMigrationsGo runUp appliedIds migs st).1.txSnapshot = none ∧
      (∀ i ∈ st.db.ledger, i ∈ (applyMigrationsGo runUp appliedIds migs st).1.db.ledger) ∧
      (∀ m ∈ migs, m.id ∈ (applyMigrationsGo runUp appliedIds migs st).1.db.ledger) := by
  intro migs
  induction migs with
  | nil =>
      intro st htx _ _ _
      exact ⟨htx, fun i hi => hi, by simp⟩
  | cons m rest ih =>
      intro st htx hord happ hok
      by_cases hskip : m.id ∈ appliedIds
      · rw [applyMigrationsGo, if_pos hskip] at hok ⊢
        rcases ih st htx (fun m2 h2 => hord m2 (by simp [h2])) happ hok with
          ⟨h1, h2, h3⟩
        refine ⟨h1, h2, ?_⟩
        intro m2 hm2
        rcases List.mem_cons.mp hm2 with rfl | hm2
        · exact h2 m2.id (happ m2.id hskip)
        · exact h3 m2 hm2
      · cases hu : runUp m.up st.db.schema with
        | error e =>
            rw [applyGo_pending_upfail runUp appliedIds m rest st e htx
              (hord m (by simp)) hskip hu] at hok
            simp at hok
        | ok s2 =>
            by_cases hin : m.id ∈ st.db.ledger
            · rw [applyGo_pending_dup runUp appliedIds m rest st s2 htx
                (hord m (by simp)) hskip hu hin] at hok
              simp at hok
            · rw [applyGo_pending_ok runUp appliedIds m rest st s2 htx
                (hord m (by simp)) hskip hu hin] at hok ⊢
              have happ2 : ∀ i ∈ appliedIds,
                  i ∈ (⟨⟨st.db.ledger ++ [m.id], s2⟩, none⟩ :
                    EngineState (MigDb S)).db.ledger := by
                intro i hi
                simp [happ i hi]
              rcases ih ⟨⟨st.db.ledger ++ [m.id], s2⟩, none⟩ rfl
                (fun m2 h2 => hord m2 (by simp [h2])) happ2 hok with ⟨h1, h2, h3⟩
              refine ⟨h1, ?_, ?_⟩
              · intro i hi
                exact h2 i (by simp [hi])
              · intro m2 hm2
                rcases List.mem_cons.mp hm2 with rfl | hm2
                · exact h2 m2.id (by simp)
                · exact h3 m2 hm2

theorem applyGo_ledger_sub {S : Type} (runUp : String → S → Except String S)
    (appliedIds : List Int) :
    ∀ (migs : List Migration) (st : EngineState (MigDb S)),
      st.txSnapshot = none →
      (∀ m ∈ migs, ordinaryUp m.up) →
      ∀ i, i ∈ (applyMigrationsGo runUp appliedIds migs st).1.db.ledger →
        i ∈ st.db.ledger ∨ i ∈ migs.map Migration.id := by
  intro migs
  induction migs with
  | nil => intro st _ _ i hi; exact Or.inl hi
  | cons m rest ih =>
      intro st htx hord i hi
      by_cases hskip : m.id ∈ appliedIds
      · rw [applyMigrationsGo, if_pos hskip] at hi
        rcases ih st htx (fun m2 h2 => hord m2 (by simp [h2])) i hi with h | h
        · exact Or.inl h
        · exact Or.inr (by simp [h])
      · cases hu : runUp m.up st.db.schema with
        | error e =>
            rw [applyGo_pending_upfail runUp appliedIds m rest st e htx
              (hord m (by simp)) hskip hu] at hi
            exact Or.inl hi
        | ok s2 =>
            by_cases hin : m.id ∈ st.db.ledger
            · rw [applyGo_pending_dup runUp appliedIds m rest st s2 htx
                (hord m (by simp)) hskip hu hin] at hi
              exact Or.inl hi
            · rw [applyGo_pending_ok runUp appliedIds m rest st s2 htx
                (hord m (by simp)) hskip hu hin] at hi
              rcases ih ⟨⟨st.db.ledger ++ [m.id], s2⟩, none⟩ rfl
                (fun m2 h2 => hord m2 (by simp [h2])) i hi with h | h
              · simp only [MigDb.ledger] at h
                rcases List.mem_append.mp h with h | h
                · exact Or.inl h
                · simp at h
                  exact Or.inr (by simp [h])
              · exact Or.inr (by simp [h])

instance : IsTotal Migration (fun a b => a.id ≤ b.id) :=
  ⟨fun a b => le_total a.id b.id⟩

instance : IsTrans Migration (fun a b => a.id ≤ b.id) :=
  ⟨fun _ _ _ h1 h2 => le_trans h1 h2⟩

instance : IsAntisymm Migration (fun a b => a.id < b.id) :=
  ⟨fun _ _ h1 h2 => absurd (h1.trans h2) (lt_irrefl _)⟩

theorem sortMigrations_perm (l : List Migration) : (sortMigrations l).Perm l :=
  List.perm_insertionSort _ l

theorem sortMigrations_sorted (l : List Migration) :
    (sortMigrations l).Pairwise (fun a b => a.id ≤ b.id) :=
  List.sorted_insertionSort _ l

theorem sortMigrations_strict (l : List Migration)
    (hnd : (l.map Migration.id).Nodup) :
    (sortMigrations l).Pairwise (fun a b => a.id < b.id) := by
  have hnd2 : ((sortMigrations l).map Migration.id).Nodup :=
    (((sortMigrations_perm l).map Migration.id).nodup_iff).mpr hnd
  have hne : (sortMigrations l).Pairwise (fun a b => a.id ≠ b.id) :=
    List.pairwise_map.mp hnd2
  exact ((sortMigrations_sorted l).and hne).imp
    (fun h => lt_of_le_of_ne h.1 h.2)

theorem sortMigrations_eq_of_perm (l1 l2 : List Migration)
    (hnd : (l1.map Migration.id).Nodup) (hperm : l1.Perm l2) :
    sortMigrations l1 = sortMigrations l2 := by
  have hnd2 : (l2.map Migration.id).Nodup :=
    ((hperm.map Migration.id).nodup_iff).mp hnd
  exact List.eq_of_perm_of_sorted
    ((sortMigrations_perm l1).trans (hperm.trans (sortMigrations_perm l2).symm))
    (sortMigrations_strict l1 hnd) (sortMigrations_strict l2 hnd2)

theorem engineExec_create {S : Type} (runUp : String → S → Except String S)
    (st : EngineState (MigDb S)) :
    engineExec (migSem runUp) createLedgerSql ([] : List Int) st =
      Except.ok (st, 0) := by
  unfold engineExec migSem
  rw [if_neg (by decide), if_neg (by decide), if_neg (by decide), if_pos rfl]

theorem applyMigrations_eq {S : Type} (runUp : String → S → Except String S)
    (migs : List Migration) (st : EngineState (MigDb S)) :
    applyMigrations runUp migs st =
      ((applyMigrationsGo runUp st.db.ledger (sortMigrations migs) st).1,
       createLedgerSql ::
         (applyMigrationsGo runUp st.db.ledger (sortMigrations migs) st).2.1,
       (applyMigrationsGo runUp st.db.ledger (sortMigrations migs) st).2.2) := by
  unfold applyMigrations
  simp only [engineExec_create]

/-- C5: when the up script of some pending migration (position m in the
sorted sequence, with everything before it succeeding) fails, the applier
rolls that migration's transaction back (the state is exactly the one
reached before it, its id is not recorded in the ledger), executes nothing
of the later migrations (the SQL trace ends at the failed script's
rollback), and propagates the error. -/
theorem migration_up_failure {S : Type} (runUp : String → S → Except String S)
    (migs : List Migration) (st : EngineState (MigDb S))
    (pre post : List Migration) (m : Migration) (msg : String)
    (htx : st.txSnapshot = none)
    (hord : ∀ m2 ∈ migs, ordinaryUp m2.up)
    (hsplit : sortMigrations migs = pre ++ m :: post)
    (hpreok : (applyMigrationsGo runUp st.db.ledger pre st).2.2 = Except.ok ())
    (hpend : m.id ∉ st.db.ledger)
    (hprenid : m.id ∉ pre.map Migration.id)
    (hfail : runUp m.up
      (applyMigrationsGo runUp st.db.ledger pre st).1.db.schema = Except.error msg) :
    applyMigrations runUp migs st =
      ((applyMigrationsGo runUp st.db.ledger pre st).1,
       createLedgerSql :: (applyMigrationsGo runUp st.db.ledger pre st).2.1
         ++ ["BEGIN", m.up, "ROLLBACK"],
       Except.error msg) ∧
    (applyMigrations runUp migs st).2.2 = Except.error msg ∧
    m.id ∉ (applyMigrations runUp migs st).1.db.ledger := by
  have hordsorted : ∀ m2 ∈ sortMigrations migs, ordinaryUp m2.up :=
    fun m2 h => hord m2 ((sortMigrations_perm migs).mem_iff.mp h)
  have hordpre : ∀ m2 ∈ pre, ordinaryUp m2.up :=
    fun m2 h => hordsorted m2 (by rw [hsplit]; exact List.mem_append.mpr (Or.inl h))
  have hordm : ordinaryUp m.up :=
    hordsorted m (by rw [hsplit]; simp)
  rcases applyGo_ok_ledger runUp st.db.ledger pre st htx hordpre
    (fun i hi => hi) hpreok with ⟨htxPre, _, _⟩
  have hpendPre : m.id ∉ (applyMigrationsGo runUp st.db.ledger pre st).1.db.ledger := by
    intro hin
    rcases applyGo_ledger_sub runUp st.db.ledger pre st htx hordpre m.id hin with
      h | h
    · exact hpend h
    · exact hprenid h
  have hstep := applyGo_pending_upfail runUp st.db.ledger m post
    (applyMigrationsGo runUp st.db.ledger pre st).1 msg htxPre hordm hpend hfail
  have heta : (⟨(applyMigrationsGo runUp st.db.ledger pre st).1.db, none⟩ :
      EngineState (MigDb S)) = (applyMigrationsGo runUp st.db.ledger pre st).1 := by
    rw [← htxPre]
  have happend := applyGo_append runUp st.db.ledger pre (m :: post) st htx hordpre
  have hmain : applyMigrations runUp migs st =
      ((applyMigrationsGo runUp st.db.ledger pre st).1,
       createLedgerSql :: (applyMigrationsGo runUp st.db.ledger pre st).2.1
         ++ ["BEGIN", m.up, "ROLLBACK"],
       Except.error msg) := by
    rw [applyMigrations_eq, hsplit, happend]
    simp only [hpreok, hstep, heta]
    simp
  refine ⟨hmain, by rw [hmain], ?_⟩
  rw [hmain]
  exact hpendPre

/-- C6: with pairwise-distinct ids, the applier behaves identically on any
permutation of the migration list (the sorted order, which is strictly
ascending by id, is the authoritative execution order), and applying the
same list a second time after a successful apply executes no up script (the
trace is just the ledger DDL) and leaves the state exactly as it was. -/
theorem migration_order_idempotent {S : Type} (runUp : String → S → Except String S)
    (migs : List Migration) (st : EngineState (MigDb S))
    (hnd : (migs.map Migration.id).Nodup)
    (hord : ∀ m ∈ migs, ordinaryUp m.up)
    (htx : st.txSnapshot = none) :
    (∀ migs2, migs2.Perm migs →
      applyMigrations runUp migs2 st = applyMigrations runUp migs st) ∧
    (sortMigrations migs).Pairwise (fun a b => a.id < b.id) ∧
    (∀ st1 tr1, applyMigrations runUp migs st = (st1, tr1, Except.ok ()) →
      applyMigrations runUp migs st1 = (st1, [createLedgerSql], Except.ok ())) := by
  refine ⟨?_, sortMigrations_strict migs hnd, ?_⟩
  · intro migs2 hperm
    have hnd2 : (migs2.map Migration.id).Nodup :=
      ((hperm.map Migration.id).nodup_iff).mpr hnd
    have hsort : sortMigrations migs2 = sortMigrations migs :=
      sortMigrations_eq_of_perm migs2 migs hnd2 hperm
    rw [applyMigrations_eq, applyMigrations_eq, hsort]
  · intro st1 tr1 hres
    rw [applyMigrations_eq] at hres
    have h1 : (applyMigrationsGo runUp st.db.ledger (sortMigrations migs) st).1 = st1 :=
      congrArg Prod.fst hres
    have h3 : (applyMigrationsGo runUp st.db.ledger (sortMigrations migs) st).2.2 =
        Except.ok () := by
      have := congrArg (fun p => p.2.2) hres
      exact this
    have hordsorted : ∀ m ∈ sortMigrations migs, ordinaryUp m.up :=
      fun m h => hord m ((sortMigrations_perm migs).mem_iff.mp h)
    rcases applyGo_ok_ledger runUp st.db.ledger (sortMigrations migs) st htx
      hordsorted (fun i hi => hi) h3 with ⟨_, _, hall⟩
    rw [h1] at hall
    rw [applyMigrations_eq,
      applyGo_skip_all runUp st1.db.ledger (sortMigrations migs) st1
        (fun m hm => hall m hm)]

/-- A concrete schema semantics for migration witnesses: the schema is the
list of executed scripts, and the script m2bad fails with boom. -/
def runUpEx : String → List String → Except String (List String) :=
  fun s sch => if s = "m2bad" then Except.error "boom" else Except.ok (sch ++ [s])

/-- A migration list, deliberately out of order, whose id 2 script fails
under runUpEx. -/
def migsFailEx : List Migration :=
  [⟨3, "m3", none⟩, ⟨1, "m1", none⟩, ⟨2, "m2bad", none⟩]

/-- A migration list, deliberately out of order, entirely succeeding under
runUpEx. -/
def migsOkEx : List Migration :=
  [⟨2, "m2", none⟩, ⟨1, "m1", none⟩]

/-- C5 witness: the id 2 migration fails after id 1 applied; id 3 never
runs and 2 is absent from the ledger. -/
theorem migration_up_failure_witness :
    applyMigrations runUpEx migsFailEx ⟨⟨[], []⟩, none⟩ =
      ((applyMigrationsGo runUpEx [] [⟨1, "m1", none⟩] ⟨⟨[], []⟩, none⟩).1,
       createLedgerSql ::
         (applyMigrationsGo runUpEx [] [⟨1, "m1", none⟩] ⟨⟨[], []⟩, none⟩).2.1
         ++ ["BEGIN", "m2bad", "ROLLBACK"],
       Except.error "boom") ∧
    (applyMigrations runUpEx migsFailEx ⟨⟨[], []⟩, none⟩).2.2 = Except.error "boom" ∧
    (2 : Int) ∉ (applyMigrations runUpEx migsFailEx ⟨⟨[], []⟩, none⟩).1.db.ledger :=
  migration_up_failure runUpEx migsFailEx ⟨⟨[], []⟩, none⟩
    [⟨1, "m1", none⟩] [⟨3, "m3", none⟩] ⟨2, "m2bad", none⟩ "boom"
    rfl (by decide) (by decide) rfl (by decide) (by decide) rfl

/-- C6 witness: a two-element out-of-order list with distinct ids. -/
theorem migration_order_idempotent_witness :
    (∀ migs2, migs2.Perm migsOkEx →
      applyMigrations runUpEx migs2 (⟨⟨[], []⟩, none⟩ : EngineState (MigDb (List String))) =
        applyMigrations runUpEx migsOkEx ⟨⟨[], []⟩, none⟩) ∧
    (sortMigrations migsOkEx).Pairwise (fun a b => a.id < b.id) ∧
    (∀ st1 tr1, applyMigrations runUpEx migsOkEx ⟨⟨[], []⟩, none⟩ =
        (st1, tr1, Except.ok ()) →
      applyMigrations runUpEx migsOkEx st1 = (st1, [createLedgerSql], Except.ok ())) :=
  migration_order_idempotent runUpEx migsOkEx ⟨⟨[], []⟩, none⟩
    (by decide) (by decide) rfl

end Squeel
